import Mathlib

/-!
A verification development for a Monte Carlo tree search engine for a
7x6 connection game (bitboard rules oracle, fixed-capacity node arena,
UCB1 playout algorithm, xoroshiro128+ random generator).

The definitions below are a shallow embedding of the C source
(src/connect4.c).  Machine integers are modeled as `Nat` with explicit
reduction modulo `2 ^ 64` where 64-bit overflow matters; `float`
accumulators are modeled as `Rat` (only which constant is added matters
for the statements proved here) and the UCB value formula over `Real`.
C loops become structural recursion; the call stack of the two
recursive C functions (`connect4_free`, `connect4_playout`) is modeled
by an explicit fuel argument that dominates the recursion depth, with a
distinguished fault result `-2` for the unreachable fuel-out case and
for executions that are undefined in C (failed assertions, modulo by
zero).
-/

namespace Connect4

/-- Modulus for 64-bit unsigned arithmetic. -/
def U64 : Nat := 2 ^ 64

/-- Board width (`CONNECT4_WIDTH`). -/
def WIDTH : Nat := 7

/-- Board height (`CONNECT4_HEIGHT`). -/
def HEIGHT : Nat := 6

/-- Exploration constant `CONNECT4_C = 2.0f`. -/
noncomputable def CONNECT4_C : Real := 2

/-- Score increment for a win, `CONNECT4_SCORE_WIN = 1.0f`. -/
def CONNECT4_SCORE_WIN : Rat := 1

/-- Score increment for a draw, `CONNECT4_SCORE_DRAW = 0.1f`. -/
def CONNECT4_SCORE_DRAW : Rat := 1 / 10

/-- `rotl(x, k)`: 64-bit rotate left. -/
def rotl (x : Nat) (k : Nat) : Nat :=
  ((x <<< k) % U64) ||| (x >>> (64 - k))

/-- `xoroshiro128plus`: returns the drawn value and the updated two-word
state. -/
def xoroshiro128plus (s : Nat × Nat) : Nat × (Nat × Nat) :=
  let s0 := s.1
  let s1 := s.2
  let result := (s0 + s1) % U64
  let s1x := s1 ^^^ s0
  (result, (rotl s0 55 ^^^ s1x ^^^ ((s1x <<< 14) % U64), rotl s1x 36))

/-- `splitmix64`: returns the drawn value and the advanced seed word. -/
def splitmix64 (x : Nat) : Nat × Nat :=
  let x1 := (x + 0x9E3779B97F4A7C15) % U64
  let z1 := (x1 ^^^ (x1 >>> 30)) * 0xBF58476D1CE4E5B9 % U64
  let z2 := (z1 ^^^ (z1 >>> 27)) * 0x94D049BB133111EB % U64
  (z2 ^^^ (z2 >>> 31), x1)

/-- The eight direction vectors of the `delta` table in
`connect4_startup`, in source order. -/
def connect4_delta : List (Int × Int) :=
  [(-1, -1), (-1, 0), (-1, 1), (0, 1), (0, -1), (1, 1), (1, 0), (1, -1)]

/-- One cell of a candidate window in `connect4_startup`: in-bounds flag
and the contributed bit (`1 << (yy*WIDTH + xx)` when in bounds). -/
def connect4_windowCell (x y : Nat) (dxy : Int × Int) (p : Int) : Bool × Nat :=
  let xx : Int := (x : Int) + dxy.1 * p
  let yy : Int := (y : Int) + dxy.2 * p
  if 0 ≤ xx ∧ xx < 7 ∧ 0 ≤ yy ∧ yy < 6 then
    (true, 1 <<< (yy * 7 + xx).toNat)
  else
    (false, 0)

/-- One candidate window (`mask`, `valid`) of `connect4_startup` for
cell `(x, y)`, direction `dxy`, offset `s`: the four cells at
parameters `s, s+1, s+2, s+3`. -/
def connect4_window (x y : Nat) (dxy : Int × Int) (s : Int) : Bool × Nat :=
  ([s, s + 1, s + 2, s + 3].map (connect4_windowCell x y dxy)).foldl
    (fun acc w => (acc.1 && w.1, acc.2 ||| w.2)) (true, 0)

/-- The sequence of masks `connect4_startup` writes for cell `(x, y)`:
for each of the 8 directions, for each offset `s ∈ {-3,-2,-1,0}`, the
window mask when the whole window is on the board.  The C code writes
the `i`-th element of this list to `connect4_wins[y*WIDTH+x][i]`, with
no bound check against the declared row size of 16. -/
def connect4_cellWrites (x y : Nat) : List Nat :=
  (connect4_delta.map (fun dxy =>
    ([-3, -2, -1, 0] : List Int).filterMap (fun s =>
      let w := connect4_window x y dxy s
      if w.1 then some w.2 else none))).flatten

/-- The flat memory of the static array `uint64_t connect4_wins[42][16]`
after `connect4_startup` ran: cells are processed in index order and the
writes for cell `c` land at flat offsets `c*16 + i` for consecutive `i`
starting at 0 — exactly the addresses the C row-major array arithmetic
produces, including the writes with `i ≥ 16` that run past the end of
the declared row into the following row. -/
def connect4_winsMem : List Nat :=
  (List.range 42).foldl
    (fun mem c =>
      ((connect4_cellWrites (c % 7) (c / 7)).foldl
        (fun st m => (st.1.set st.2 m, st.2 + 1)) (mem, c * 16)).1)
    (List.replicate 672 0)

/-- `connect4_wins[position][i]` as read by `connect4_check` after
startup. -/
def connect4_wins (position i : Nat) : Nat :=
  connect4_winsMem.getD (position * 16 + i) 0

/-- `enum connect4_result`. -/
inductive Connect4Result where
  | unresolved
  | draw
  | win
deriving DecidableEq, Repr

/-- `connect4_check(who, opponent, position, *how)`: scan the 16 table
entries of `position` for a line mask fully contained in `who`; else
report a draw when the board is full.  Returns the result and the `how`
output mask. -/
def connect4_check (who opponent : Nat) (position : Nat) : Connect4Result × Nat :=
  match ((List.range 16).map (fun i => connect4_wins position i)).find?
      (fun mask => mask != 0 && mask &&& who == mask) with
  | some mask => (Connect4Result.win, mask)
  | none =>
    if who ||| opponent = 0x3ffffffffff then (Connect4Result.draw, 0)
    else (Connect4Result.unresolved, 0)

/-- `connect4_valid(taken, play)`: the column index is in range and the
top cell `1 << play` of the column is unoccupied.  The column is a
`Nat`, so the `play >= 0` conjunct of the source is implicit. -/
def connect4_valid (taken : Nat) (play : Nat) : Bool :=
  play < 7 && !(taken.testBit play)

/-- The scan loop of `connect4_drop`: starting just above `position`,
step by `WIDTH` for the remaining `k` rows; on the first occupied cell
return the cell one step back, otherwise the last cell reached. -/
def connect4_dropGo (taken : Nat) : Nat → Nat → Nat
  | position, 0 => position
  | position, k + 1 =>
    let p1 := position + 7
    if taken.testBit p1 then p1 - 7 else connect4_dropGo taken p1 k

/-- `connect4_drop(taken, play)`: the landing bit index for a piece
dropped in column `play` (scans `HEIGHT - 1 = 5` steps). -/
def connect4_drop (taken play : Nat) : Nat :=
  connect4_dropGo taken play 5

/-- Sentinel `CONNECT4_NULL = (uint32_t)-1`: no child yet. -/
def CONNECT4_NULL : Nat := 4294967295

/-- Sentinel `CONNECT4_WIN0 = (uint32_t)-2`: forced win for player 0. -/
def CONNECT4_WIN0 : Nat := 4294967294

/-- Sentinel `CONNECT4_WIN1 = (uint32_t)-3`: forced win for player 1. -/
def CONNECT4_WIN1 : Nat := 4294967293

/-- Sentinel `CONNECT4_DRAW = (uint32_t)-4`: forced draw.  A value `n`
denotes a real node exactly when `n < CONNECT4_DRAW`. -/
def CONNECT4_DRAW : Nat := 4294967292

/-- `struct connect4_node`: per column a child reference (node index or
sentinel), a visit count, and an accumulated score. -/
structure Connect4Node where
  next : Fin 7 → Nat
  playouts : Fin 7 → Nat
  score : Fin 7 → Rat
deriving DecidableEq

/-- The field values `connect4_alloc` resets a node to. -/
def connect4_resetNode : Connect4Node :=
  { next := fun _ => CONNECT4_NULL, playouts := fun _ => 0, score := fun _ => 0 }

/-- `struct connect4_ai`: the generator state, the arena bookkeeping,
the root index, the board state and turn at the root, and the node
pool.  The pool is modeled as a total function from indices to nodes;
only indices below `nodes_available` correspond to arena memory. -/
structure Connect4AI where
  state : Fin 2 → Nat
  rng : Nat × Nat
  nodes_available : Nat
  nodes_allocated : Nat
  root : Nat
  free : Nat
  turn : Fin 2
  nodes : Nat → Connect4Node

/-- `connect4_alloc`: pop the free-list head and reset all its
per-column fields; return `CONNECT4_NULL` without any change when the
free list is exhausted. -/
def connect4_alloc (c : Connect4AI) : Nat × Connect4AI :=
  let node := c.free
  if node = CONNECT4_NULL then (node, c)
  else
    let n := c.nodes node
    (node,
      { c with
        nodes_allocated := c.nodes_allocated + 1
        free := n.next 0
        nodes := Function.update c.nodes node connect4_resetNode })

/-- `connect4_free(c, node)`: when `node` is a real index, decrement the
allocation count, recursively free the seven child references (reading
each reference from the current pool, as the C code reads memory), then
push the node onto the free list through its `next[0]` field.  The
`fuel` argument models the C call stack: it strictly dominates the
recursion depth, and the fuel-out case (unreachable for well-formed
trees given enough fuel) leaves the state unchanged. -/
def connect4_free : Nat → Connect4AI → Nat → Connect4AI
  | 0, c, _ => c
  | fuel + 1, c, node =>
    if node < CONNECT4_DRAW then
      let c1 := { c with nodes_allocated := c.nodes_allocated - 1 }
      let c2 := (List.finRange 7).foldl
        (fun acc i => connect4_free fuel acc ((acc.nodes node).next i)) c1
      { c2 with
        nodes := Function.update c2.nodes node
          { c2.nodes node with
            next := Function.update (c2.nodes node).next 0 c2.free }
        free := node }
    else c

/-- The state `connect4_init` builds before allocating the root: zero
board, player 0 to move, generator seeded by folding the wall-clock
value `timeval` (the `time(0)` call) into the static accumulator
`seed0` and drawing `splitmix64` twice, and the free list threaded
through `next[0]` as `0 → 1 → ⋯ → navail-1 → CONNECT4_NULL`.  The
byte-budget-to-capacity division of the source is memory-layout
arithmetic; its result is taken as the parameter `navail`.  Returns the
state together with the advanced static seed accumulator. -/
def connect4_init_pre (navail seed0 timeval : Nat) : Connect4AI × Nat :=
  let seed1 := seed0 ^^^ timeval
  let d0 := splitmix64 seed1
  let d1 := splitmix64 d0.2
  ({ state := fun _ => 0
     rng := (d0.1, d1.1)
     nodes_available := navail
     nodes_allocated := 0
     root := CONNECT4_NULL
     free := 0
     turn := 0
     nodes := fun i =>
       { connect4_resetNode with
         next := Function.update connect4_resetNode.next 0
           (if i + 1 < navail then i + 1 else CONNECT4_NULL) } },
   d1.2)

/-- `connect4_init`: build the fresh state and allocate the root
node. -/
def connect4_init (navail seed0 timeval : Nat) : Connect4AI × Nat :=
  let p := connect4_init_pre navail seed0 timeval
  let a := connect4_alloc p.1
  ({ a.2 with root := a.1 }, p.2)

/-- `connect4_advance(c, play)`: apply the drop to the root board, flip
the turn, detach the child along `play`, free the old root (with the
detached child cleared so the recursive free skips it), and make the
detached reference the new root, allocating a fresh node only when the
reference is `CONNECT4_NULL`.  The C code asserts validity of `play`;
the invalid case is modeled as leaving the state unchanged. -/
def connect4_advance (fuel : Nat) (c : Connect4AI) (play : Nat) : Connect4AI :=
  if h : connect4_valid (c.state 0 ||| c.state 1) play = true then
    let position := connect4_drop (c.state 0 ||| c.state 1) play
    let playF : Fin 7 := ⟨play, by
      have := h
      unfold connect4_valid at this
      simp only [Bool.and_eq_true, decide_eq_true_eq] at this
      exact this.1⟩
    let c1 := { c with
      state := Function.update c.state c.turn (c.state c.turn ||| (1 <<< position))
      turn := 1 - c.turn }
    let old_root := c1.root
    let newRoot := (c1.nodes c1.root).next playF
    let c2 := { c1 with
      root := newRoot
      nodes := Function.update c1.nodes c1.root
        { c1.nodes c1.root with
          next := Function.update (c1.nodes c1.root).next playF CONNECT4_NULL } }
    let c3 := connect4_free fuel c2 old_root
    if c3.root = CONNECT4_NULL then
      let a := connect4_alloc c3
      { a.2 with root := a.1 }
    else c3
  else c

/-- Increment the visit count of column `play` at node index `node`
(the statement `n->playouts[play]++` of the source). -/
def connect4_bumpPlayouts (c : Connect4AI) (node : Nat) (play : Fin 7) : Connect4AI :=
  { c with
    nodes := Function.update c.nodes node
      { c.nodes node with
        playouts := Function.update (c.nodes node).playouts play
          ((c.nodes node).playouts play + 1) } }

/-- Add `amt` to the score of column `play` at node index `node`
(the statements `n->score[play] += …` of the source). -/
def connect4_addScore (c : Connect4AI) (node : Nat) (play : Fin 7) (amt : Rat) : Connect4AI :=
  { c with
    nodes := Function.update c.nodes node
      { c.nodes node with
        score := Function.update (c.nodes node).score play
          ((c.nodes node).score play + amt) } }

/-- Store `v` in the child reference of column `play` at node index
`node` (the statements `n->next[play] = …` of the source). -/
def connect4_setNext (c : Connect4AI) (node : Nat) (play : Fin 7) (v : Nat) : Connect4AI :=
  { c with
    nodes := Function.update c.nodes node
      { c.nodes node with
        next := Function.update (c.nodes node).next play v } }

/-- The score increment the backup-from-recursion path of
`connect4_playout` adds for the chosen column: the fixed win increment
when the returned winner is the mover at this node, the same win
increment when the recursive result is the draw code 2, and nothing
otherwise (in particular nothing for the aborted code `-1`).  This is
the two-branch conditional after the recursive call in the source:
`if (winner == turn) … += CONNECT4_SCORE_WIN; else if (winner == 2)
… += CONNECT4_SCORE_WIN;`. -/
def connect4_backupIncrement (winner : Int) (turn : Fin 2) : Rat :=
  if winner = ((turn : Nat) : Int) then CONNECT4_SCORE_WIN
  else if winner = 2 then CONNECT4_SCORE_WIN
  else 0

/-- The preliminary scan of the UCB branch: the sum of the visit counts
of the legal columns. -/
def connect4_ucbTotal (n : Connect4Node) (taken : Nat) : Nat :=
  (List.finRange 7).foldl
    (fun total i => if connect4_valid taken i then total + n.playouts i else total) 0

/-- The UCB value of a legal column: the mean score (accumulated score
over visit count) plus `sqrt(numerator / playouts[i])`, where
`numerator` was computed before the selection scan. -/
noncomputable def connect4_ucbValue (n : Connect4Node) (numerator : Real) (i : Fin 7) : Real :=
  ((n.score i / (n.playouts i : Rat) : Rat) : Real) +
    Real.sqrt (numerator / (n.playouts i : Real))

/-- One iteration of the selection scan of the UCB branch.  The
accumulator mirrors the loop state of the source: the running `total`
(which the loop keeps adding to even though `numerator` was already
computed from the preliminary total — the re-accumulated value is dead
for the selection result), the best value so far (`none` models the
initial `-INFINITY`), and the tied best columns in encounter order. -/
noncomputable def connect4_ucbScanStep (n : Connect4Node) (taken : Nat) (numerator : Real)
    (acc : Nat × Option Real × List (Fin 7)) (i : Fin 7) :
    Nat × Option Real × List (Fin 7) :=
  if connect4_valid taken i then
    let total := acc.1 + n.playouts i
    let value := connect4_ucbValue n numerator i
    match acc.2.1 with
    | none => (total, some value, ([i] : List (Fin 7)))
    | some bv =>
      if value > bv then (total, some value, ([i] : List (Fin 7)))
      else if value = bv then (total, some bv, acc.2.2 ++ ([i] : List (Fin 7)))
      else (total, some bv, acc.2.2)
  else acc

/-- The selection scan of the UCB branch: fold the step over the seven
columns in index order. -/
noncomputable def connect4_ucbScan (n : Connect4Node) (taken : Nat) (numerator : Real)
    (total0 : Nat) : Nat × Option Real × List (Fin 7) :=
  (List.finRange 7).foldl (connect4_ucbScanStep n taken numerator) (total0, none, [])

/-- The move selection of the fully-expanded branch of
`connect4_playout`: compute the preliminary total, the numerator
`CONNECT4_C * logf(total)`, run the selection scan, and pick
`best[0]` when exactly one column is best, otherwise
`best[xoroshiro128plus(rng) % nbest]` (consuming one random draw).  An
empty best list (no legal column at all) makes the source reduce
modulo zero, which is undefined; it is modeled as `none`. -/
noncomputable def connect4_ucbSelect (c : Connect4AI) (n : Connect4Node) (taken : Nat) :
    Option (Fin 7) × Connect4AI :=
  let total := connect4_ucbTotal n taken
  let numerator := CONNECT4_C * Real.log (total : Real)
  let scan := connect4_ucbScan n taken numerator total
  let best := scan.2.2
  if best.length = 1 then (some (best.getD 0 0), c)
  else if best.length = 0 then (none, c)
  else
    let draw := xoroshiro128plus c.rng
    (some (best.getD (draw.1 % best.length) 0), { c with rng := draw.2 })

/-- One iteration of the simulation loop of `connect4_playout` (the
`for (;;)` loop after a successful expansion): play one move without
node allocation, and on a terminal position credit the score of the
expanded edge `original_play`.  Mirrors the source literally, including
the turn variable being negated both at the top and at the bottom of
the loop body (`roll` receives the turn after the second negation).  A
position with no legal column makes the source reduce modulo zero
(unreachable, since the loop only continues on unresolved positions);
it is modeled as the fault result `-2`. -/
def connect4_rolloutStep
    (roll : Connect4AI → (Fin 2 → Nat) → Fin 2 → Int × Connect4AI)
    (c : Connect4AI) (node : Nat) (copy : Fin 2 → Nat) (turn : Fin 2)
    (original_play : Fin 7) (original_turn : Fin 2) : Int × Connect4AI :=
  let turn1 : Fin 2 := 1 - turn
  let taken := copy 0 ||| copy 1
  let options := (List.finRange 7).filter (fun i => connect4_valid taken i)
  if options.length = 0 then (-2, c)
  else
    let pick :=
      if options.length = 1 then (options.getD 0 0, c)
      else
        let draw := xoroshiro128plus c.rng
        (options.getD (draw.1 % options.length) 0, { c with rng := draw.2 })
    let play := pick.1
    let c1 := pick.2
    let position := connect4_drop (copy 0 ||| copy 1) play
    let copy1 := Function.update copy turn1 (copy turn1 ||| (1 <<< position))
    match (connect4_check (copy1 turn1) (copy1 (1 - turn1)) position).1 with
    | Connect4Result.unresolved => roll c1 copy1 (1 - turn1)
    | Connect4Result.draw =>
      (2, connect4_addScore c1 node original_play CONNECT4_SCORE_DRAW)
    | Connect4Result.win =>
      (((turn1 : Nat) : Int),
        if turn1 = original_turn then
          connect4_addScore c1 node original_play CONNECT4_SCORE_WIN
        else c1)

/-- The simulation loop of `connect4_playout`, iterated with a fuel
bound that dominates the number of remaining moves (fuel-out is the
fault result `-2`, unreachable with enough fuel). -/
def connect4_rollout :
    Nat → Connect4AI → Nat → (Fin 2 → Nat) → Fin 2 → Fin 7 → Fin 2 → Int × Connect4AI
  | 0, c, _, _, _, _, _ => (-2, c)
  | fuel + 1, c, node, copy, turn, original_play, original_turn =>
    connect4_rolloutStep
      (fun c2 copy2 turn2 => connect4_rollout fuel c2 node copy2 turn2 original_play original_turn)
      c node copy turn original_play original_turn

/-- One step of `connect4_playout(c, node, state, turn)`.  Terminal
sentinels return immediately; `CONNECT4_NULL` fails the source
assertion (modeled as the fault result `-2`).  At a real node, the
untried legal columns are collected; if there are none, a column is
selected by UCB and the playout recurses (`recur`) into its child,
backing up the visit count (only for non-aborted results) and the
score increment; otherwise one untried column is picked at random and
expanded: terminal outcomes are recorded as sentinel children,
unresolved positions allocate a child node (propagating `-1` with the
child reference still `CONNECT4_NULL` when the arena is exhausted) and
run one random rollout (`roll`). -/
noncomputable def connect4_playoutStep
    (recur : Connect4AI → Nat → (Fin 2 → Nat) → Fin 2 → Int × Connect4AI)
    (roll : Connect4AI → Nat → (Fin 2 → Nat) → Fin 2 → Fin 7 → Fin 2 → Int × Connect4AI)
    (c : Connect4AI) (node : Nat) (st : Fin 2 → Nat) (turn : Fin 2) : Int × Connect4AI :=
  if node = CONNECT4_WIN0 then (0, c)
  else if node = CONNECT4_WIN1 then (1, c)
  else if node = CONNECT4_DRAW then (2, c)
  else if node = CONNECT4_NULL then (-2, c)
  else
    let n := c.nodes node
    let taken := st 0 ||| st 1
    let options := (List.finRange 7).filter
      (fun i => n.next i == CONNECT4_NULL && connect4_valid taken i)
    if options.length = 0 then
      match connect4_ucbSelect c n taken with
      | (none, c1) => (-2, c1)
      | (some play, c1) =>
        let position := connect4_drop (st 0 ||| st 1) play
        let copy := Function.update st turn (st turn ||| (1 <<< position))
        let r := recur c1 (n.next play) copy (1 - turn)
        let winner := r.1
        let c2 := if 0 ≤ winner then connect4_bumpPlayouts r.2 node play else r.2
        let c3 := connect4_addScore c2 node play (connect4_backupIncrement winner turn)
        (winner, c3)
    else
      let pick :=
        if options.length = 1 then (options.getD 0 0, c)
        else
          let draw := xoroshiro128plus c.rng
          (options.getD (draw.1 % options.length) 0, { c with rng := draw.2 })
      let play := pick.1
      let c1 := pick.2
      let position := connect4_drop (st 0 ||| st 1) play
      let copy := Function.update st turn (st turn ||| (1 <<< position))
      match (connect4_check (copy turn) (copy (1 - turn)) position).1 with
      | Connect4Result.draw =>
        (2, connect4_setNext
          (connect4_addScore (connect4_bumpPlayouts c1 node play) node play
            CONNECT4_SCORE_DRAW)
          node play CONNECT4_DRAW)
      | Connect4Result.win =>
        (((turn : Nat) : Int),
          connect4_setNext
            (connect4_addScore (connect4_bumpPlayouts c1 node play) node play
              CONNECT4_SCORE_WIN)
            node play (if turn = 1 then CONNECT4_WIN1 else CONNECT4_WIN0))
      | Connect4Result.unresolved =>
        let a := connect4_alloc c1
        let c2 := connect4_setNext a.2 node play a.1
        if a.1 = CONNECT4_NULL then (-1, c2)
        else
          let c3 := connect4_bumpPlayouts c2 node play
          roll c3 node copy turn play turn

/-- `connect4_playout`: one playout from `node`, iterating
`connect4_playoutStep` with a fuel bound modeling the C call stack.
The fuel strictly dominates the recursion depth (bounded by the number
of empty cells); fuel-out returns the fault result `-2`. -/
noncomputable def connect4_playout :
    Nat → Connect4AI → Nat → (Fin 2 → Nat) → Fin 2 → Int × Connect4AI
  | 0, c, _, _, _ => (-2, c)
  | fuel + 1, c, node, st, turn =>
    connect4_playoutStep (connect4_playout fuel) (connect4_rollout fuel) c node st turn

/-- The playout batch loop of `connect4_playout_many`: run up to
`count` playouts from the root, stopping early the first time one
reports the aborted code `-1`. -/
noncomputable def connect4_playout_manyGo (fuel : Nat) : Nat → Connect4AI → Connect4AI
  | 0, c => c
  | count + 1, c =>
    let r := connect4_playout fuel c c.root c.state c.turn
    if r.1 = -1 then r.2 else connect4_playout_manyGo fuel count r.2

/-- The best-move extraction of `connect4_playout_many`: among the root
columns with a nonzero visit count, maximize accumulated score over
visit count; the strict `>` comparison keeps the lowest column index on
ties; `-1` when no column has been visited. -/
def connect4_bestMove (c : Connect4AI) : Int :=
  let n := c.nodes c.root
  ((List.finRange 7).foldl
    (fun acc i =>
      if n.playouts i ≠ 0 then
        let mean := n.score i / (n.playouts i : Rat)
        match acc.1 with
        | none => (some mean, ((i : Nat) : Int))
        | some best => if mean > best then (some mean, ((i : Nat) : Int)) else acc
      else acc)
    ((none : Option Rat), (-1 : Int))).2

/-- `connect4_playout_many(c, count)`: the batch loop followed by the
best-move extraction; returns the chosen column and the final state. -/
noncomputable def connect4_playout_many (fuel count : Nat) (c : Connect4AI) :
    Int × Connect4AI :=
  let c1 := connect4_playout_manyGo fuel count c
  (connect4_bestMove c1, c1)

/-! ## The drop scan -/

/-- Reference description of the scan in `connect4_drop`: the number of
upward steps taken, namely one less than the index of the first
occupied cell among `play + 7·1, …, play + 7·5` (counting from 1), or 5
when the whole column above the entry cell is unoccupied. -/
def connect4_dropScanIdx (taken play : Nat) : Nat :=
  if taken.testBit (play + 7 * 1) then 0
  else if taken.testBit (play + 7 * 2) then 1
  else if taken.testBit (play + 7 * 3) then 2
  else if taken.testBit (play + 7 * 4) then 3
  else if taken.testBit (play + 7 * 5) then 4
  else 5

/-! ## Concrete fixtures for witnesses and counterexamples -/

/-- A position with exactly two empty cells, both in column 0 (bits 0
and 7); every other column is full.  One arena node (index 1) is still
free.  The single legal column forces every pick, so the generator
words are never consumed. -/
def cW2 : Connect4AI :=
  { state := fun t => if t = 0 then 4398046461566 else 49408
    rng := (1, 2)
    nodes_available := 2
    nodes_allocated := 0
    root := 0
    free := 1
    turn := 0
    nodes := fun _ => connect4_resetNode }

/-- The board of `cW2` after the expansion move filled bit 7: only bit
0 remains empty. -/
def cp2 : Fin 2 → Nat :=
  fun t => if t = 0 then 4398046461694 else 49408

/-- An empty-board state whose root is the real node 0 and whose arena
free list is exhausted. -/
def cW8 : Connect4AI :=
  { state := fun _ => 0
    rng := (1, 2)
    nodes_available := 1
    nodes_allocated := 1
    root := 0
    free := CONNECT4_NULL
    turn := 0
    nodes := fun _ => connect4_resetNode }

/-- The per-column subtree node lists of the root of `cW6`: the single
real child 1 along column 0. -/
def cW6ls : Fin 7 → List Nat :=
  fun i => if i = 0 then [1] else []

/-- An empty-board state whose root node 0 has one real child node 1
along column 0 and empty references elsewhere; node 1 is a leaf. -/
def cW6 : Connect4AI :=
  { state := fun _ => 0
    rng := (1, 2)
    nodes_available := 2
    nodes_allocated := 2
    root := 0
    free := CONNECT4_NULL
    turn := 0
    nodes := fun m =>
      if m = 0 then
        { next := fun i => if i = 0 then 1 else CONNECT4_NULL
          playouts := fun i => if i = 0 then 1 else 0
          score := fun _ => 0 }
      else connect4_resetNode }

/-- An empty-board state whose root node 0 records the forced-draw
sentinel along column 0. -/
def cW10 : Connect4AI :=
  { state := fun _ => 0
    rng := (1, 2)
    nodes_available := 1
    nodes_allocated := 1
    root := 0
    free := CONNECT4_NULL
    turn := 0
    nodes := fun m =>
      if m = 0 then
        { next := fun i => if i = 0 then CONNECT4_DRAW else CONNECT4_NULL
          playouts := fun i => if i = 0 then 1 else 0
          score := fun _ => 0 }
      else connect4_resetNode }

/-- The caller pattern `taken |= 1 << connect4_drop(taken, play)`
(state update in `connect4_advance` and `connect4_game_move`). -/
def connect4_dropFill (taken play : Nat) : Nat :=
  taken ||| (1 <<< connect4_drop taken play)

/-- The fields of the search state that `connect4_free` never writes. -/
def connect4_metaEq (a b : Connect4AI) : Prop :=
  a.state = b.state ∧ a.rng = b.rng ∧ a.nodes_available = b.nodes_available ∧
    a.root = b.root ∧ a.turn = b.turn

/-- The free list starting at `head` passes through exactly the nodes
of `l` in order, linked through the `next[0]` fields of `nodesf`, and
then continues at `tail`. -/
def connect4_chainTo (nodesf : Nat → Connect4Node) : Nat → List Nat → Nat → Prop
  | head, [], tail => head = tail
  | head, x :: xs, tail => head = x ∧ connect4_chainTo nodesf ((nodesf x).next 0) xs tail

/-- `connect4_subtree fuel c node ns`: in state `c`, the references
reachable from `node` form a finite tree whose real-node indices, in
preorder, are exactly `ns`, with recursion depth below `fuel` (so that
`connect4_free fuel` can traverse it completely).  A leaf reference is
one of the four sentinel values. -/
inductive connect4_subtree : Nat → Connect4AI → Nat → List Nat → Prop
  | sentinel (fuel : Nat) (c : Connect4AI) (node : Nat)
      (h : node = CONNECT4_WIN0 ∨ node = CONNECT4_WIN1 ∨ node = CONNECT4_DRAW ∨
        node = CONNECT4_NULL) : connect4_subtree fuel c node []
  | real (fuel : Nat) (c : Connect4AI) (node : Nat) (ls : Fin 7 → List Nat)
      (h : node < CONNECT4_DRAW)
      (hch : ∀ i : Fin 7, connect4_subtree fuel c ((c.nodes node).next i) (ls i)) :
      connect4_subtree (fuel + 1) c node
        (node :: ((List.finRange 7).map ls).flatten)

/-- What `connect4_free` does to a represented subtree: some
permutation of its real nodes becomes a prefix of the free list
(ending at the previous list head), every node outside the subtree is
untouched, and visit counts and scores are untouched everywhere (the
free-list links reuse only the `next[0]` fields). -/
def connect4_freeSpec (fuel : Nat) (c : Connect4AI) (node : Nat) (ns : List Nat) : Prop :=
  ∃ p : List Nat, p.Perm ns ∧
    connect4_chainTo (connect4_free fuel c node).nodes
      (connect4_free fuel c node).free p c.free ∧
    (∀ j, j ∉ ns → (connect4_free fuel c node).nodes j = c.nodes j) ∧
    (∀ j, ((connect4_free fuel c node).nodes j).playouts = (c.nodes j).playouts ∧
      ((connect4_free fuel c node).nodes j).score = (c.nodes j).score)

/-- Repeated allocation: the list of indices returned by `k` successive
calls to `connect4_alloc`, with the final state. -/
def connect4_allocN : Connect4AI → Nat → List Nat × Connect4AI
  | c, 0 => ([], c)
  | c, k + 1 =>
    let a := connect4_alloc c
    let r := connect4_allocN a.2 k
    (a.1 :: r.1, r.2)

/-- The state `connect4_advance` reaches just before freeing the old
root: drop applied to the root board, turn flipped, root moved to the
child reference along `play`, and that reference cleared in the old
root node. -/
def connect4_advanceDetach (c : Connect4AI) (play : Fin 7) : Connect4AI :=
  { c with
    state := Function.update c.state c.turn
      (c.state c.turn ||| (1 <<< connect4_drop (c.state 0 ||| c.state 1) (play : Nat)))
    turn := 1 - c.turn
    root := (c.nodes c.root).next play
    nodes := Function.update c.nodes c.root
      { c.nodes c.root with
        next := Function.update ((c.nodes c.root).next) play CONNECT4_NULL } }

/-- Equality of everything in the search state except the generator
words: the node pool, the arena bookkeeping, the root, and the board
mirror.  A playout that aborts leaves the state in this relation to
its starting state. -/
def connect4_sameTree (a b : Connect4AI) : Prop :=
  a.nodes = b.nodes ∧ a.root = b.root ∧ a.free = b.free ∧
    a.nodes_allocated = b.nodes_allocated ∧ a.nodes_available = b.nodes_available ∧
    a.state = b.state ∧ a.turn = b.turn

/-- The per-node invariant: a column has a nonzero visit count exactly
when its child reference is not the empty sentinel. -/
def connect4_nodeInv (n : Connect4Node) : Prop :=
  ∀ i : Fin 7, n.playouts i ≠ 0 ↔ n.next i ≠ CONNECT4_NULL

/-- Loop invariant of the selection scan over the already-scanned
columns `seen`: with no best value yet, no scanned column was legal;
with best value `bv`, the tied list is nonempty and holds exactly the
scanned legal columns of value `bv`, and every scanned legal column has
value at most `bv`. -/
def connect4_scanInv (n : Connect4Node) (taken : Nat) (numerator : Real)
    (acc : Nat × Option Real × List (Fin 7)) (seen : List (Fin 7)) : Prop :=
  (acc.2.1 = none → acc.2.2 = [] ∧ ∀ i ∈ seen, connect4_valid taken i = false) ∧
  (∀ bv : Real, acc.2.1 = some bv →
    acc.2.2 ≠ [] ∧
    (∀ i ∈ acc.2.2, i ∈ seen ∧ connect4_valid taken i = true ∧
      connect4_ucbValue n numerator i = bv) ∧
    (∀ i ∈ seen, connect4_valid taken i = true → connect4_ucbValue n numerator i ≤ bv) ∧
    (∀ i ∈ seen, connect4_valid taken i = true → connect4_ucbValue n numerator i = bv →
      i ∈ acc.2.2))

/-- `connect4_invFrame c d ns flist`: every node of state `d` satisfies
the visit/reference invariant, and `d` agrees with `c` on every node
record outside `ns` and `flist`. -/
def connect4_invFrame (c d : Connect4AI) (ns flist : List Nat) : Prop :=
  (∀ x, connect4_nodeInv (d.nodes x)) ∧
  (∀ x, x ∉ ns → x ∉ flist → d.nodes x = c.nodes x)

theorem connect4_drop_eq_scan (taken play : Nat) :
    connect4_drop taken play = play + 7 * connect4_dropScanIdx taken play := by
  show connect4_dropGo taken play 5 = _
  have e1 : play + 7 = play + 7 * 1 := rfl
  have e2 : play + 7 * 1 + 7 = play + 7 * 2 := by ring
  have e3 : play + 7 * 2 + 7 = play + 7 * 3 := by ring
  have e4 : play + 7 * 3 + 7 = play + 7 * 4 := by ring
  have e5 : play + 7 * 4 + 7 = play + 7 * 5 := by ring
  by_cases h1 : taken.testBit (play + 7 * 1) <;>
    by_cases h2 : taken.testBit (play + 7 * 2) <;>
    by_cases h3 : taken.testBit (play + 7 * 3) <;>
    by_cases h4 : taken.testBit (play + 7 * 4) <;>
    by_cases h5 : taken.testBit (play + 7 * 5) <;>
    simp [connect4_dropGo, connect4_dropScanIdx, e1, e2, e3, e4, e5, h1, h2, h3, h4, h5] <;>
    omega

theorem connect4_drop_unoccupied (taken play : Nat)
    (h : connect4_valid taken play = true) :
    taken.testBit (connect4_drop taken play) = false := by
  have hbit : taken.testBit play = false := by
    unfold connect4_valid at h
    simp only [Bool.and_eq_true, Bool.not_eq_true', decide_eq_true_eq] at h
    exact h.2
  rw [connect4_drop_eq_scan]
  unfold connect4_dropScanIdx
  by_cases h1 : taken.testBit (play + 7 * 1) <;>
    by_cases h2 : taken.testBit (play + 7 * 2) <;>
    by_cases h3 : taken.testBit (play + 7 * 3) <;>
    by_cases h4 : taken.testBit (play + 7 * 4) <;>
    by_cases h5 : taken.testBit (play + 7 * 5) <;>
    simp [h1, h2, h3, h4, h5] <;>
    simpa using hbit

theorem connect4_drop_lt (taken play : Nat) (h : play < 7) :
    connect4_drop taken play < 42 := by
  rw [connect4_drop_eq_scan]
  have hle : connect4_dropScanIdx taken play ≤ 5 := by
    unfold connect4_dropScanIdx
    split <;> try omega
    split <;> try omega
    split <;> try omega
    split <;> try omega
    split <;> omega
  omega

/-! ## Claims C1, C4, C9 -/

/-- C1: for cell `(x, y) = (3, 2)` the table construction generates 26
line masks (8 directions x up to 4 offsets, with the two directions of
an axis producing the same windows and no deduplication), so the write
index runs past the 16-entry row `connect4_wins[17]` declared in the
source — an out-of-bounds write.  The third conjunct shows the
underlying spec intent is right: after deduplication every cell has at
most 16 (in fact at most 13) distinct line masks. -/
theorem C1_table_row_overflow :
    (connect4_cellWrites 3 2).length = 26 ∧
    ¬ (connect4_cellWrites 3 2).length ≤ 16 ∧
    (∀ (x : Fin 7) (y : Fin 6), ((connect4_cellWrites x y).dedup).length ≤ 16) :=
  ⟨by decide, by decide, by decide⟩

/-- C4 counterexample: on an empty board, `connect4_drop` for column 0
returns bit 35 (row index 5), not bit 0 as the claim states. -/
theorem C4_counterexample :
    connect4_drop 0 0 = 35 ∧ connect4_drop 0 0 ≠ 0 := by
  decide

/-- C4 (amended): `connect4_drop(occupied, column)` scans away from the
entry cell `column` (bit `column`, the cell `connect4_valid` tests) in
steps of `WIDTH`, returning the cell just before the first occupied
cell, or the far end `column + 35` when the column is otherwise empty;
the result is an unoccupied cell of the same column below index 42.
In particular on the empty board column 0 yields bit 35 (row index 5),
and six successive drops into column 0 fill it, after which
`connect4_valid` rejects the column. -/
theorem C4_drop_position (taken play : Nat)
    (h : connect4_valid taken play = true) :
    connect4_drop taken play = play + 7 * connect4_dropScanIdx taken play ∧
    taken.testBit (connect4_drop taken play) = false ∧
    connect4_drop taken play % 7 = play % 7 ∧
    connect4_drop taken play < 42 ∧
    connect4_drop 0 0 = 35 ∧
    connect4_valid ((fun t => connect4_dropFill t 0)^[6] 0) 0 = false := by
  have hlt : play < 7 := by
    unfold connect4_valid at h
    simp only [Bool.and_eq_true, decide_eq_true_eq] at h
    exact h.1
  refine ⟨connect4_drop_eq_scan taken play, connect4_drop_unoccupied taken play h, ?_,
    connect4_drop_lt taken play hlt, by decide, by decide⟩
  rw [connect4_drop_eq_scan]
  omega

theorem C4_drop_position_witness :
    connect4_valid 0 0 = true ∧ connect4_drop 0 0 = 0 + 7 * connect4_dropScanIdx 0 0 :=
  ⟨by decide, (C4_drop_position 0 0 (by decide)).1⟩

/-- C9 counterexample: the generator state produced by initialization
depends on the wall-clock input (here times 0 and 1 with the same prior
static accumulator), and initialization mutates the process-wide static
seed accumulator shared by all engine instances; there is no
caller-injectable seed parameter in `connect4_init`. -/
theorem C9_counterexample :
    (connect4_init 1 0 0).1.rng ≠ (connect4_init 1 0 1).1.rng ∧
    (connect4_init 1 0 0).2 ≠ 0 := by
  refine ⟨by decide, by decide⟩

/-- C9 (amended): the seed consumed at initialization is not injectable
by the caller: `connect4_init` folds the wall-clock value into the
process-wide static accumulator and derives the generator state from it
by two `splitmix64` draws.  Given the wall-clock value and the prior
accumulator value, the resulting generator state and advanced
accumulator are the deterministic functions shown. -/
theorem C9_seed_from_wallclock (navail seed0 timeval : Nat) :
    (connect4_init navail seed0 timeval).1.rng =
      ((splitmix64 (seed0 ^^^ timeval)).1,
        (splitmix64 (splitmix64 (seed0 ^^^ timeval)).2).1) ∧
    (connect4_init navail seed0 timeval).2 =
      (splitmix64 (splitmix64 (seed0 ^^^ timeval)).2).2 := by
  exact ⟨rfl, rfl⟩

/-! ## Arena machinery: free list chains and subtree shapes -/

theorem connect4_free_sentinel (fuel : Nat) (c : Connect4AI) (node : Nat)
    (h : CONNECT4_DRAW ≤ node) : connect4_free fuel c node = c := by
  cases fuel with
  | zero => rfl
  | succ fuel =>
    unfold connect4_free
    rw [if_neg (by omega)]

theorem connect4_metaEq_refl (a : Connect4AI) : connect4_metaEq a a :=
  ⟨rfl, rfl, rfl, rfl, rfl⟩

theorem connect4_metaEq_trans {a b c : Connect4AI}
    (h1 : connect4_metaEq a b) (h2 : connect4_metaEq b c) : connect4_metaEq a c := by
  obtain ⟨s1, r1, n1, o1, t1⟩ := h1
  obtain ⟨s2, r2, n2, o2, t2⟩ := h2
  exact ⟨s1.trans s2, r1.trans r2, n1.trans n2, o1.trans o2, t1.trans t2⟩

theorem connect4_free_metaEq (fuel : Nat) : ∀ (c : Connect4AI) (node : Nat),
    connect4_metaEq (connect4_free fuel c node) c := by
  induction fuel with
  | zero => intro c node; exact connect4_metaEq_refl c
  | succ fuel ih =>
    intro c node
    unfold connect4_free
    split
    · refine connect4_metaEq_trans (b := (List.finRange 7).foldl
        (fun acc i => connect4_free fuel acc ((acc.nodes node).next i))
        { c with nodes_allocated := c.nodes_allocated - 1 }) ?_ ?_
      · exact ⟨rfl, rfl, rfl, rfl, rfl⟩
      · have hfold : ∀ (il : List (Fin 7)) (acc : Connect4AI),
            connect4_metaEq
              (il.foldl (fun acc i => connect4_free fuel acc ((acc.nodes node).next i)) acc)
              acc := by
          intro il
          induction il with
          | nil => intro acc; exact connect4_metaEq_refl acc
          | cons i is ihl =>
            intro acc
            exact connect4_metaEq_trans (ihl _) (ih acc _)
        exact connect4_metaEq_trans (hfold _ _) (connect4_metaEq_refl _)
    · exact connect4_metaEq_refl c

theorem connect4_chainTo_congr (nodesf nodesg : Nat → Connect4Node) :
    ∀ (l : List Nat) (head tail : Nat),
    (∀ x ∈ l, nodesg x = nodesf x) →
    connect4_chainTo nodesf head l tail → connect4_chainTo nodesg head l tail := by
  intro l
  induction l with
  | nil => intro head tail _ h; exact h
  | cons x xs ih =>
    intro head tail hag h
    obtain ⟨h1, h2⟩ := h
    refine ⟨h1, ?_⟩
    have hx : nodesg x = nodesf x := hag x (by simp)
    rw [hx]
    exact ih _ _ (fun y hy => hag y (by simp [hy])) h2

theorem connect4_chainTo_append (nodesf : Nat → Connect4Node) :
    ∀ (l1 : List Nat) (l2 : List Nat) (head mid tail : Nat),
    connect4_chainTo nodesf head l1 mid → connect4_chainTo nodesf mid l2 tail →
    connect4_chainTo nodesf head (l1 ++ l2) tail := by
  intro l1
  induction l1 with
  | nil => intro l2 head mid tail h1 h2; cases h1; exact h2
  | cons x xs ih =>
    intro l2 head mid tail h1 h2
    obtain ⟨hh, ht⟩ := h1
    exact ⟨hh, ih _ _ _ _ ht h2⟩

theorem connect4_sentinel_ge {node : Nat}
    (h : node = CONNECT4_WIN0 ∨ node = CONNECT4_WIN1 ∨ node = CONNECT4_DRAW ∨
      node = CONNECT4_NULL) : CONNECT4_DRAW ≤ node := by
  rcases h with rfl | rfl | rfl | rfl <;> decide

theorem connect4_subtree_lt {fuel : Nat} {c : Connect4AI} {node : Nat} {ns : List Nat}
    (h : connect4_subtree fuel c node ns) : ∀ j ∈ ns, j < CONNECT4_DRAW := by
  induction h with
  | sentinel fuel c node h => intro j hj; cases hj
  | real fuel c node ls h hch ih =>
    intro j hj
    rcases List.mem_cons.mp hj with rfl | hj
    · exact h
    · obtain ⟨l, hl, hjl⟩ := List.mem_flatten.mp hj
      obtain ⟨i, _, rfl⟩ := List.mem_map.mp hl
      exact ih i j hjl

theorem connect4_subtree_congr {fuel : Nat} {c : Connect4AI} {node : Nat} {ns : List Nat}
    (h : connect4_subtree fuel c node ns) :
    ∀ (c2 : Connect4AI), (∀ j ∈ ns, c2.nodes j = c.nodes j) →
    connect4_subtree fuel c2 node ns := by
  induction h with
  | sentinel fuel c node h =>
    intro c2 _
    exact connect4_subtree.sentinel fuel c2 node h
  | real fuel c node ls h hch ih =>
    intro c2 hag
    have hnode : c2.nodes node = c.nodes node := hag node (by simp)
    refine connect4_subtree.real fuel c2 node ls h ?_
    intro i
    rw [hnode]
    refine ih i c2 ?_
    intro j hj
    refine hag j ?_
    refine List.mem_cons.mpr (Or.inr ?_)
    exact List.mem_flatten.mpr ⟨ls i, List.mem_map.mpr ⟨i, List.mem_finRange i, rfl⟩, hj⟩

theorem connect4_freeSpec_trivial (fuel : Nat) (c : Connect4AI) (node : Nat)
    (h : connect4_free fuel c node = c) : connect4_freeSpec fuel c node [] := by
  refine ⟨[], List.Perm.refl _, ?_, ?_, ?_⟩
  · rw [h]
    rfl
  · intro j _
    rw [h]
  · intro j
    rw [h]
    exact ⟨rfl, rfl⟩

theorem connect4_free_spec :
    ∀ (fuel : Nat) (c : Connect4AI) (node : Nat) (ns : List Nat),
    connect4_subtree fuel c node ns → ns.Nodup → connect4_freeSpec fuel c node ns := by
  intro fuel
  induction fuel with
  | zero =>
    intro c node ns hrep _
    cases hrep with
    | sentinel _ _ _ hs => exact connect4_freeSpec_trivial 0 c node rfl
  | succ fuel ih =>
    intro c node ns hrep hnd
    cases hrep with
    | sentinel _ _ _ hs =>
      exact connect4_freeSpec_trivial _ c node
        (connect4_free_sentinel _ c node (connect4_sentinel_ge hs))
    | real _ _ _ ls h hch =>
      rw [List.nodup_cons] at hnd
      obtain ⟨hnode, hflat⟩ := hnd
      have hF : connect4_free (fuel + 1) c node =
          { (List.finRange 7).foldl
              (fun acc i => connect4_free fuel acc ((acc.nodes node).next i))
              { c with nodes_allocated := c.nodes_allocated - 1 } with
            nodes := Function.update
              ((List.finRange 7).foldl
                (fun acc i => connect4_free fuel acc ((acc.nodes node).next i))
                { c with nodes_allocated := c.nodes_allocated - 1 }).nodes node
              { ((List.finRange 7).foldl
                  (fun acc i => connect4_free fuel acc ((acc.nodes node).next i))
                  { c with nodes_allocated := c.nodes_allocated - 1 }).nodes node with
                next := Function.update
                  (((List.finRange 7).foldl
                      (fun acc i => connect4_free fuel acc ((acc.nodes node).next i))
                      { c with nodes_allocated := c.nodes_allocated - 1 }).nodes node).next 0
                  ((List.finRange 7).foldl
                      (fun acc i => connect4_free fuel acc ((acc.nodes node).next i))
                      { c with nodes_allocated := c.nodes_allocated - 1 }).free }
            free := node } := by
        conv_lhs => unfold connect4_free
        rw [if_pos h]
      have hfold :
          ∀ (il : List (Fin 7)) (acc : Connect4AI),
          ((il.map ls).flatten).Nodup →
          node ∉ (il.map ls).flatten →
          (∀ i ∈ il, connect4_subtree fuel acc ((acc.nodes node).next i) (ls i)) →
          ∃ q : List Nat, q.Perm (il.map ls).flatten ∧
            connect4_chainTo
              (List.foldl (fun a i => connect4_free fuel a ((a.nodes node).next i)) acc il).nodes
              (List.foldl (fun a i => connect4_free fuel a ((a.nodes node).next i)) acc il).free
              q acc.free ∧
            (∀ j, j ∉ (il.map ls).flatten →
              (List.foldl (fun a i => connect4_free fuel a ((a.nodes node).next i)) acc il).nodes j
                = acc.nodes j) ∧
            (∀ j,
              ((List.foldl (fun a i => connect4_free fuel a ((a.nodes node).next i)) acc il).nodes j).playouts
                = (acc.nodes j).playouts ∧
              ((List.foldl (fun a i => connect4_free fuel a ((a.nodes node).next i)) acc il).nodes j).score
                = (acc.nodes j).score) := by
        intro il
        induction il with
        | nil =>
          intro acc _ _ _
          exact ⟨[], List.Perm.refl _, rfl, fun j _ => rfl, fun j => ⟨rfl, rfl⟩⟩
        | cons i is ihl =>
          intro acc hndf hnn hreps
          have hflc : ((i :: is).map ls).flatten = ls i ++ (is.map ls).flatten := by simp
          rw [hflc] at hndf hnn
          have hnd_i : (ls i).Nodup := (List.nodup_append.mp hndf).1
          have hnd_rest : ((is.map ls).flatten).Nodup := (List.nodup_append.mp hndf).2.1
          have hdisj : (ls i).Disjoint ((is.map ls).flatten) := (List.nodup_append.mp hndf).2.2
          have hnn_i : node ∉ ls i := fun hmem => hnn (List.mem_append.mpr (Or.inl hmem))
          have hnn_rest : node ∉ (is.map ls).flatten :=
            fun hmem => hnn (List.mem_append.mpr (Or.inr hmem))
          obtain ⟨p1, hp1perm, hp1chain, hp1frame, hp1ps⟩ :=
            ih acc ((acc.nodes node).next i) (ls i) (hreps i (by simp)) hnd_i
          have hreps2 : ∀ i2 ∈ is,
              connect4_subtree fuel (connect4_free fuel acc ((acc.nodes node).next i))
                (((connect4_free fuel acc ((acc.nodes node).next i)).nodes node).next i2)
                (ls i2) := by
            intro i2 hi2
            have hnodesame :
                (connect4_free fuel acc ((acc.nodes node).next i)).nodes node = acc.nodes node :=
              hp1frame node hnn_i
            rw [hnodesame]
            refine connect4_subtree_congr (hreps i2 (by simp [hi2])) _ ?_
            intro j hj
            refine hp1frame j ?_
            intro hjin
            exact hdisj hjin
              (List.mem_flatten.mpr ⟨ls i2, List.mem_map.mpr ⟨i2, hi2, rfl⟩, hj⟩)
          obtain ⟨q2, hq2perm, hq2chain, hq2frame, hq2ps⟩ :=
            ihl (connect4_free fuel acc ((acc.nodes node).next i)) hnd_rest hnn_rest hreps2
          refine ⟨q2 ++ p1, ?_, ?_, ?_, ?_⟩
          · rw [hflc]
            exact (List.Perm.append hq2perm hp1perm).trans List.perm_append_comm
          · rw [List.foldl_cons]
            refine connect4_chainTo_append _ q2 p1 _ _ _ hq2chain ?_
            refine connect4_chainTo_congr _ _ p1 _ _ ?_ hp1chain
            intro x hx
            refine hq2frame x ?_
            intro hxin
            exact hdisj (hp1perm.mem_iff.mp hx) hxin
          · intro j hj
            rw [hflc] at hj
            rw [List.foldl_cons]
            rw [hq2frame j (fun hmem => hj (List.mem_append.mpr (Or.inr hmem)))]
            exact hp1frame j (fun hmem => hj (List.mem_append.mpr (Or.inl hmem)))
          · intro j
            rw [List.foldl_cons]
            exact ⟨(hq2ps j).1.trans (hp1ps j).1, (hq2ps j).2.trans (hp1ps j).2⟩
      have hreps1 : ∀ i ∈ List.finRange 7,
          connect4_subtree fuel { c with nodes_allocated := c.nodes_allocated - 1 }
            ((({ c with nodes_allocated := c.nodes_allocated - 1 } : Connect4AI).nodes node).next i)
            (ls i) := by
        intro i _
        exact connect4_subtree_congr (hch i) _ (fun j _ => rfl)
      obtain ⟨q, hqperm, hqchain, hqframe, hqps⟩ :=
        hfold (List.finRange 7) { c with nodes_allocated := c.nodes_allocated - 1 } hflat hnode hreps1
      refine ⟨node :: q, List.Perm.cons node hqperm, ?_, ?_, ?_⟩
      · rw [hF]
        refine ⟨rfl, ?_⟩
        simp only [Function.update_same]
        refine connect4_chainTo_congr _ _ q _ _ ?_ hqchain
        intro x hx
        have hxnode : x ≠ node := fun hxe => hnode (hxe ▸ hqperm.mem_iff.mp hx)
        exact Function.update_noteq hxnode _ _
      · intro j hj
        rw [List.mem_cons] at hj
        push_neg at hj
        rw [hF]
        simp only [Function.update_noteq hj.1]
        exact hqframe j hj.2
      · intro j
        rw [hF]
        by_cases hje : j = node
        · subst hje
          simp only [Function.update_same]
          exact hqps j
        · simp only [Function.update_noteq hje]
          exact hqps j

theorem connect4_allocN_chain :
    ∀ (q : List Nat) (c : Connect4AI) (tail : Nat),
    connect4_chainTo c.nodes c.free q tail → q.Nodup →
    (∀ x ∈ q, x < CONNECT4_DRAW) →
    (connect4_allocN c q.length).1 = q ∧
    (connect4_allocN c q.length).2.free = tail ∧
    (∀ x ∈ q, (connect4_allocN c q.length).2.nodes x = connect4_resetNode) ∧
    (∀ j, j ∉ q → (connect4_allocN c q.length).2.nodes j = c.nodes j) := by
  intro q
  induction q with
  | nil =>
    intro c tail hchain _ _
    refine ⟨rfl, hchain, ?_, fun j _ => rfl⟩
    intro x hx
    cases hx
  | cons x xs ihq =>
    intro c tail hchain hnd hreal
    obtain ⟨hhead, htail⟩ := hchain
    rw [List.nodup_cons] at hnd
    obtain ⟨hxnot, hndxs⟩ := hnd
    have hxreal : x < CONNECT4_DRAW := hreal x (by simp)
    have hxnull : ¬ (c.free = CONNECT4_NULL) := by
      rw [hhead]
      unfold CONNECT4_DRAW at hxreal
      unfold CONNECT4_NULL
      omega
    have halloc : connect4_alloc c =
        (x, { c with
                nodes_allocated := c.nodes_allocated + 1
                free := (c.nodes x).next 0
                nodes := Function.update c.nodes x connect4_resetNode }) := by
      unfold connect4_alloc
      simp only [if_neg hxnull, hhead]
      rw [if_neg (hhead ▸ hxnull)]
    have hchain2 : connect4_chainTo
        (Function.update c.nodes x connect4_resetNode) ((c.nodes x).next 0) xs tail := by
      refine connect4_chainTo_congr _ _ xs _ _ ?_ htail
      intro y hy
      exact Function.update_noteq (fun hyx => hxnot (by rw [← hyx]; exact hy)) _ _
    obtain ⟨ih1, ih2, ih3, ih4⟩ := ihq
      { c with
          nodes_allocated := c.nodes_allocated + 1
          free := (c.nodes x).next 0
          nodes := Function.update c.nodes x connect4_resetNode }
      tail hchain2 hndxs (fun y hy => hreal y (by simp [hy]))
    have hstep : connect4_allocN c (x :: xs).length =
        ((connect4_alloc c).1 :: (connect4_allocN (connect4_alloc c).2 xs.length).1,
          (connect4_allocN (connect4_alloc c).2 xs.length).2) := by
      simp [connect4_allocN]
    rw [hstep, halloc]
    refine ⟨by rw [ih1], ih2, ?_, ?_⟩
    · intro y hy
      rcases List.mem_cons.mp hy with rfl | hy2
      · rw [ih4 y hxnot]
        exact Function.update_same y connect4_resetNode c.nodes
      · exact ih3 y hy2
    · intro j hj
      rw [List.mem_cons] at hj
      push_neg at hj
      rw [ih4 j hj.2]
      exact Function.update_noteq hj.1 _ _

theorem connect4_init_pre_chain (K seed0 timeval : Nat) (hK : 1 ≤ K) :
    connect4_chainTo (connect4_init_pre K seed0 timeval).1.nodes 0
      (List.range K) CONNECT4_NULL := by
  have hnext : ∀ m : Nat, ((connect4_init_pre K seed0 timeval).1.nodes m).next 0 =
      (if m + 1 < K then m + 1 else CONNECT4_NULL) := by
    intro m
    simp [connect4_init_pre]
  have hgen : ∀ (len m : Nat), 1 ≤ len → m + len = K →
      connect4_chainTo (connect4_init_pre K seed0 timeval).1.nodes m
        (List.range' m len) CONNECT4_NULL := by
    intro len
    induction len with
    | zero =>
      intro m h1 _
      omega
    | succ len ihl =>
      intro m _ hmK
      cases Nat.eq_zero_or_pos len with
      | inl h0 =>
        subst h0
        refine ⟨rfl, ?_⟩
        show ((connect4_init_pre K seed0 timeval).1.nodes m).next 0 = CONNECT4_NULL
        rw [hnext m, if_neg (by omega)]
      | inr hpos =>
        refine ⟨rfl, ?_⟩
        rw [hnext m, if_pos (by omega)]
        exact ihl (m + 1) hpos (by omega)
  rw [List.range_eq_range']
  exact hgen K 0 hK (by omega)

/-- C7: from a freshly threaded arena of capacity `K` (the state
`connect4_init` builds before allocating the root), the first `K`
allocations return exactly the distinct indices `0, …, K-1`, each left
fully reset, and the `(K+1)`-th allocation returns `CONNECT4_NULL`;
and freeing a node whose represented subtree holds `m = ns.length`
real nodes makes the next `m` allocations all succeed.  The capacity
is assumed not to reach the reserved sentinel range, as the sentinel
encoding requires. -/
theorem C7_arena_exhaustion (K seed0 timeval : Nat) (hK : 1 ≤ K)
    (hKD : K ≤ CONNECT4_DRAW)
    (fuel : Nat) (c : Connect4AI) (node : Nat) (ns : List Nat)
    (hrep : connect4_subtree fuel c node ns) (hnd : ns.Nodup) :
    ((connect4_allocN (connect4_init_pre K seed0 timeval).1 K).1 = List.range K ∧
     (List.range K).Nodup ∧
     (∀ x ∈ List.range K, x < CONNECT4_DRAW) ∧
     (∀ x ∈ List.range K,
       (connect4_allocN (connect4_init_pre K seed0 timeval).1 K).2.nodes x =
         connect4_resetNode) ∧
     (connect4_alloc (connect4_allocN (connect4_init_pre K seed0 timeval).1 K).2).1 =
       CONNECT4_NULL) ∧
    ((connect4_allocN (connect4_free fuel c node) ns.length).1.length = ns.length ∧
     (∀ x ∈ (connect4_allocN (connect4_free fuel c node) ns.length).1,
       x ≠ CONNECT4_NULL)) := by
  constructor
  · have hchain := connect4_init_pre_chain K seed0 timeval hK
    have hfree0 : (connect4_init_pre K seed0 timeval).1.free = 0 := rfl
    rw [← hfree0] at hchain
    have hlen : (List.range K).length = K := List.length_range K
    obtain ⟨h1, h2, h3, h4⟩ := connect4_allocN_chain (List.range K)
      (connect4_init_pre K seed0 timeval).1 CONNECT4_NULL hchain (List.nodup_range K)
      (fun x hx => by
        have := List.mem_range.mp hx
        unfold CONNECT4_DRAW
        unfold CONNECT4_DRAW at hKD
        omega)
    rw [hlen] at h1 h2 h3
    refine ⟨h1, List.nodup_range K, ?_, h3, ?_⟩
    · intro x hx
      have := List.mem_range.mp hx
      unfold CONNECT4_DRAW
      unfold CONNECT4_DRAW at hKD
      omega
    · unfold connect4_alloc
      rw [if_pos h2]
      exact h2
  · obtain ⟨p, hperm, hchain, hframe, hps⟩ := connect4_free_spec fuel c node ns hrep hnd
    have hplen : p.length = ns.length := hperm.length_eq
    rw [← hplen]
    obtain ⟨h1, h2, h3, h4⟩ := connect4_allocN_chain p (connect4_free fuel c node) c.free
      hchain (hperm.nodup_iff.mpr hnd)
      (fun x hx => connect4_subtree_lt hrep x (hperm.mem_iff.mp hx))
    rw [h1]
    refine ⟨rfl, ?_⟩
    intro x hx
    have hxreal := connect4_subtree_lt hrep x (hperm.mem_iff.mp hx)
    unfold CONNECT4_DRAW at hxreal
    unfold CONNECT4_NULL
    omega

/-! ## Advance -/

theorem connect4_advance_eq (fuel : Nat) (c : Connect4AI) (play : Fin 7)
    (hv : connect4_valid (c.state 0 ||| c.state 1) (play : Nat) = true) :
    connect4_advance fuel c (play : Nat) =
      (if (connect4_free fuel (connect4_advanceDetach c play) c.root).root = CONNECT4_NULL
       then { (connect4_alloc
                (connect4_free fuel (connect4_advanceDetach c play) c.root)).2 with
              root := (connect4_alloc
                (connect4_free fuel (connect4_advanceDetach c play) c.root)).1 }
       else connect4_free fuel (connect4_advanceDetach c play) c.root) := by
  unfold connect4_advance
  rw [dif_pos hv]
  rfl

theorem connect4_subtree_head {fuel : Nat} {c : Connect4AI} {node : Nat} {ns : List Nat}
    (h : connect4_subtree fuel c node ns) (hreal : node < CONNECT4_DRAW) : node ∈ ns := by
  induction h with
  | sentinel _ _ _ hs => exact absurd (connect4_sentinel_ge hs) (by omega)
  | real _ _ _ _ _ _ _ => simp

/-- C10: when the root has a terminal-outcome sentinel recorded for
column `play`, `connect4_advance` makes that sentinel value the new
root field (no fresh node is allocated, since only an empty reference
triggers allocation), and a playout started from a sentinel root
returns the matching outcome code at once with the whole state
untouched. -/
theorem C10_advance_terminal_sentinel (fuel : Nat) (c : Connect4AI) (st : Fin 2 → Nat)
    (turn : Fin 2) (play : Fin 7) (s : Nat)
    (hs : s = CONNECT4_WIN0 ∨ s = CONNECT4_WIN1 ∨ s = CONNECT4_DRAW)
    (hv : connect4_valid (c.state 0 ||| c.state 1) (play : Nat) = true)
    (hch : (c.nodes c.root).next play = s) :
    (connect4_advance fuel c (play : Nat)).root = s ∧
    connect4_playout (fuel + 1) c s st turn =
      ((if s = CONNECT4_WIN0 then 0 else if s = CONNECT4_WIN1 then 1 else 2 : Int), c) := by
  constructor
  · rw [connect4_advance_eq fuel c play hv]
    have hd : (connect4_advanceDetach c play).root = s := by
      simp [connect4_advanceDetach, hch]
    have hfr : (connect4_free fuel (connect4_advanceDetach c play) c.root).root = s := by
      have hm := connect4_free_metaEq fuel (connect4_advanceDetach c play) c.root
      rw [hm.2.2.2.1]
      exact hd
    rw [if_neg (by
      rw [hfr]
      rcases hs with rfl | rfl | rfl <;> decide)]
    exact hfr
  · rcases hs with rfl | rfl | rfl <;> rfl

/-- Every list produced by clearing one component of a family is a
sublist of the original flattened family. -/
theorem connect4_flatten_sublist :
    ∀ (il : List (Fin 7)) (ls ls2 : Fin 7 → List Nat),
    (∀ i ∈ il, (ls2 i).Sublist (ls i)) →
    ((il.map ls2).flatten).Sublist ((il.map ls).flatten) := by
  intro il
  induction il with
  | nil => intro ls ls2 _; simp
  | cons i is ihl =>
    intro ls ls2 hsub
    simp only [List.map_cons, List.flatten_cons]
    exact List.Sublist.append (hsub i (by simp)) (ihl ls ls2 (fun j hj => hsub j (by simp [hj])))

/-- In a duplicate-free flattened family indexed by a duplicate-free
index list, an element of the component at `play` does not survive
clearing that component. -/
theorem connect4_flatten_update_not_mem :
    ∀ (il : List (Fin 7)) (ls : Fin 7 → List Nat) (play : Fin 7) (x : Nat),
    il.Nodup → ((il.map ls).flatten).Nodup → x ∈ ls play → play ∈ il →
    x ∉ ((il.map (Function.update ls play ([] : List Nat))).flatten) := by
  intro il
  induction il with
  | nil => intro ls play x _ _ _ hmem; cases hmem
  | cons i is ihl =>
    intro ls play x hilnd hnd hx hpl
    rw [List.nodup_cons] at hilnd
    simp only [List.map_cons, List.flatten_cons] at hnd ⊢
    have hnd3 := List.nodup_append.mp hnd
    by_cases hpi : play = i
    · subst hpi
      have hpis : play ∉ is := hilnd.1
      rw [Function.update_same]
      simp only [List.nil_append]
      have hmapeq : is.map (Function.update ls play ([] : List Nat)) = is.map ls := by
        refine List.map_congr_left ?_
        intro j hj
        exact Function.update_noteq (fun hje => hpis (by rw [← hje]; exact hj)) _ _
      rw [hmapeq]
      intro hxin
      exact hnd3.2.2 hx hxin
    · have hpis : play ∈ is := by
        rcases List.mem_cons.mp hpl with h | h
        · exact absurd h hpi
        · exact h
      rw [Function.update_noteq (fun hie => hpi hie.symm) _ _]
      intro hxin
      rcases List.mem_append.mp hxin with hxl | hxr
      · have hxflat : x ∈ (is.map ls).flatten :=
          List.mem_flatten.mpr ⟨ls play, List.mem_map.mpr ⟨play, hpis, rfl⟩, hx⟩
        exact hnd3.2.2 hxl hxflat
      · exact ihl ls play x hilnd.2 hnd3.2.1 hx hpis hxr

/-- C6: when the root has a real child node along `play`, advancing
along `play` makes that child the new root with its per-column fields
(child references, visit counts, scores) unchanged, while the old root
and the real nodes of every other child subtree all end up on the
arena free list. -/
theorem C6_advance_reuse (fuel : Nat) (c : Connect4AI) (play : Fin 7) (ch : Nat)
    (ls : Fin 7 → List Nat)
    (hroot : c.root < CONNECT4_DRAW)
    (hreps : ∀ i : Fin 7, connect4_subtree fuel c ((c.nodes c.root).next i) (ls i))
    (hch : (c.nodes c.root).next play = ch)
    (hchreal : ch < CONNECT4_DRAW)
    (hnd : (c.root :: ((List.finRange 7).map ls).flatten).Nodup)
    (hv : connect4_valid (c.state 0 ||| c.state 1) (play : Nat) = true) :
    (connect4_advance (fuel + 1) c (play : Nat)).root = ch ∧
    (connect4_advance (fuel + 1) c (play : Nat)).nodes ch = c.nodes ch ∧
    ∃ p : List Nat,
      p.Perm (c.root ::
        ((List.finRange 7).map (Function.update ls play ([] : List Nat))).flatten) ∧
      connect4_chainTo (connect4_advance (fuel + 1) c (play : Nat)).nodes
        (connect4_advance (fuel + 1) c (play : Nat)).free p c.free := by
  rw [List.nodup_cons] at hnd
  obtain ⟨hrflat, hflat⟩ := hnd
  -- the child is the head of its own represented subtree
  have hchls : ch ∈ ls play := by
    have h0 := hreps play
    rw [hch] at h0
    exact connect4_subtree_head h0 hchreal
  have hchflat : ch ∈ ((List.finRange 7).map ls).flatten :=
    List.mem_flatten.mpr ⟨ls play, List.mem_map.mpr ⟨play, List.mem_finRange play, rfl⟩, hchls⟩
  have hchroot : ch ≠ c.root := fun he => hrflat (he ▸ hchflat)
  -- the detached state represents the pruned tree
  have hdnext : ∀ i : Fin 7, ((connect4_advanceDetach c play).nodes c.root).next i =
      Function.update ((c.nodes c.root).next) play CONNECT4_NULL i := by
    intro i
    simp [connect4_advanceDetach]
  have hdet : ∀ i : Fin 7,
      connect4_subtree fuel (connect4_advanceDetach c play)
        (((connect4_advanceDetach c play).nodes c.root).next i)
        ((Function.update ls play ([] : List Nat)) i) := by
    intro i
    rw [hdnext i]
    by_cases hip : i = play
    · subst hip
      simp only [Function.update_same]
      exact connect4_subtree.sentinel fuel _ CONNECT4_NULL (by decide)
    · rw [Function.update_noteq hip _ _, Function.update_noteq hip _ _]
      refine connect4_subtree_congr (hreps i) _ ?_
      intro j hj
      have hjflat : j ∈ ((List.finRange 7).map ls).flatten :=
        List.mem_flatten.mpr ⟨ls i, List.mem_map.mpr ⟨i, List.mem_finRange i, rfl⟩, hj⟩
      have hjroot : j ≠ c.root := fun he => hrflat (by rw [← he]; exact hjflat)
      show (Function.update c.nodes c.root
        { c.nodes c.root with
          next := Function.update ((c.nodes c.root).next) play CONNECT4_NULL } : Nat → Connect4Node) j
        = c.nodes j
      exact Function.update_noteq hjroot _ _
  have hrep2 : connect4_subtree (fuel + 1) (connect4_advanceDetach c play) c.root
      (c.root :: ((List.finRange 7).map (Function.update ls play ([] : List Nat))).flatten) :=
    connect4_subtree.real fuel _ c.root _ hroot hdet
  -- the pruned node list is still duplicate-free
  have hsub : (((List.finRange 7).map (Function.update ls play ([] : List Nat))).flatten).Sublist
      (((List.finRange 7).map ls).flatten) := by
    refine connect4_flatten_sublist _ _ _ ?_
    intro i _
    by_cases hip : i = play
    · subst hip
      rw [Function.update_same]
      exact List.nil_sublist _
    · rw [Function.update_noteq hip _ _]
  have hnd2 : (c.root ::
      ((List.finRange 7).map (Function.update ls play ([] : List Nat))).flatten).Nodup := by
    rw [List.nodup_cons]
    exact ⟨fun hmem => hrflat (hsub.mem hmem), hflat.sublist hsub⟩
  obtain ⟨p, hperm, hchain, hframe, hps⟩ :=
    connect4_free_spec (fuel + 1) (connect4_advanceDetach c play) c.root _ hrep2 hnd2
  -- the new root is outside the freed set
  have hchnot : ch ∉ (c.root ::
      ((List.finRange 7).map (Function.update ls play ([] : List Nat))).flatten) := by
    rw [List.mem_cons]
    push_neg
    refine ⟨hchroot, ?_⟩
    exact connect4_flatten_update_not_mem (List.finRange 7) ls play ch
      (List.nodup_finRange 7) hflat hchls (List.mem_finRange play)
  have hfroot : (connect4_free (fuel + 1) (connect4_advanceDetach c play) c.root).root = ch := by
    have hm := connect4_free_metaEq (fuel + 1) (connect4_advanceDetach c play) c.root
    rw [hm.2.2.2.1]
    simp [connect4_advanceDetach, hch]
  have hadv : connect4_advance (fuel + 1) c (play : Nat) =
      connect4_free (fuel + 1) (connect4_advanceDetach c play) c.root := by
    rw [connect4_advance_eq (fuel + 1) c play hv]
    rw [if_neg (by
      rw [hfroot]
      unfold CONNECT4_DRAW at hchreal
      unfold CONNECT4_NULL
      omega)]
  refine ⟨by rw [hadv]; exact hfroot, ?_, ?_⟩
  · rw [hadv]
    rw [hframe ch hchnot]
    simp [connect4_advanceDetach]
    rw [Function.update_noteq hchroot _ _]
  · refine ⟨p, hperm, ?_⟩
    rw [hadv]
    have hfreesame : (connect4_advanceDetach c play).free = c.free := rfl
    rw [← hfreesame]
    exact hchain

/-! ## The playout frame on abort -/

theorem connect4_sameTree_refl (a : Connect4AI) : connect4_sameTree a a :=
  ⟨rfl, rfl, rfl, rfl, rfl, rfl, rfl⟩

theorem connect4_sameTree_trans {a b c : Connect4AI}
    (h1 : connect4_sameTree a b) (h2 : connect4_sameTree b c) : connect4_sameTree a c := by
  obtain ⟨a1, a2, a3, a4, a5, a6, a7⟩ := h1
  obtain ⟨b1, b2, b3, b4, b5, b6, b7⟩ := h2
  exact ⟨a1.trans b1, a2.trans b2, a3.trans b3, a4.trans b4, a5.trans b5,
    a6.trans b6, a7.trans b7⟩

theorem connect4_ucbSelect_sameTree (c : Connect4AI) (n : Connect4Node) (taken : Nat) :
    connect4_sameTree (connect4_ucbSelect c n taken).2 c := by
  unfold connect4_ucbSelect
  dsimp only
  split
  · exact connect4_sameTree_refl c
  · split
    · exact connect4_sameTree_refl c
    · exact ⟨rfl, rfl, rfl, rfl, rfl, rfl, rfl⟩

theorem connect4_getD_mem {l : List (Fin 7)} {k : Nat} (h : k < l.length) (d : Fin 7) :
    l.getD k d ∈ l := by
  rw [List.getD_eq_getElem l d h]
  exact List.getElem_mem h

/-- The column picked from the untried-options list is one of its
members: the filter guarantees its child reference is still empty and
the column is legal. -/
theorem connect4_pick_untried (c : Connect4AI) (node : Nat) (taken : Nat)
    (play : Fin 7)
    (hmem : play ∈ (List.finRange 7).filter
      (fun i => (c.nodes node).next i == CONNECT4_NULL && connect4_valid taken i)) :
    (c.nodes node).next play = CONNECT4_NULL ∧ connect4_valid taken (play : Nat) = true := by
  have h := (List.mem_filter.mp hmem).2
  rw [Bool.and_eq_true] at h
  exact ⟨by simpa using h.1, h.2⟩

theorem connect4_alloc_null (c : Connect4AI)
    (h : (connect4_alloc c).1 = CONNECT4_NULL) : (connect4_alloc c).2 = c := by
  unfold connect4_alloc
  unfold connect4_alloc at h
  by_cases hf : c.free = CONNECT4_NULL
  · rw [if_pos hf]
  · rw [if_neg hf] at h
    exact absurd h hf

theorem connect4_addScore_zero (c : Connect4AI) (node : Nat) (play : Fin 7) :
    connect4_addScore c node play 0 = c := by
  unfold connect4_addScore
  rw [add_zero, Function.update_eq_self]
  show { c with nodes := Function.update c.nodes node (c.nodes node) } = c
  rw [Function.update_eq_self]

theorem connect4_setNext_self (c : Connect4AI) (node : Nat) (play : Fin 7) (v : Nat)
    (h : (c.nodes node).next play = v) : connect4_setNext c node play v = c := by
  unfold connect4_setNext
  rw [← h, Function.update_eq_self]
  show { c with nodes := Function.update c.nodes node (c.nodes node) } = c
  rw [Function.update_eq_self]

theorem connect4_backupIncrement_abort (turn : Fin 2) :
    connect4_backupIncrement (-1) turn = 0 := by
  fin_cases turn <;> rfl

theorem connect4_rollout_ne_abort :
    ∀ (fuel : Nat) (c : Connect4AI) (node : Nat) (copy : Fin 2 → Nat) (turn : Fin 2)
      (op : Fin 7) (ot : Fin 2),
    (connect4_rollout fuel c node copy turn op ot).1 ≠ -1 := by
  intro fuel
  induction fuel with
  | zero =>
    intro c node copy turn op ot
    intro h
    have h2 : (connect4_rollout 0 c node copy turn op ot).1 = -2 := rfl
    rw [h] at h2
    omega
  | succ fuel ih =>
    intro c node copy turn op ot
    show (connect4_rolloutStep
      (fun c2 copy2 turn2 => connect4_rollout fuel c2 node copy2 turn2 op ot)
      c node copy turn op ot).1 ≠ -1
    unfold connect4_rolloutStep
    dsimp only
    split
    · intro h
      omega
    · split
      · exact ih _ _ _ _ _ _
      · intro h
        omega
      · intro h
        dsimp only at h
        omega

theorem connect4_playout_abort_frame :
    ∀ (fuel : Nat) (c : Connect4AI) (node : Nat) (st : Fin 2 → Nat) (turn : Fin 2),
    (connect4_playout fuel c node st turn).1 = -1 →
    connect4_sameTree (connect4_playout fuel c node st turn).2 c := by
  intro fuel
  induction fuel with
  | zero =>
    intro c node st turn h
    have h2 : (connect4_playout 0 c node st turn).1 = -2 := rfl
    rw [h] at h2
    omega
  | succ fuel ih =>
    intro c node st turn
    show (connect4_playoutStep (connect4_playout fuel) (connect4_rollout fuel)
        c node st turn).1 = -1 →
      connect4_sameTree (connect4_playoutStep (connect4_playout fuel) (connect4_rollout fuel)
        c node st turn).2 c
    unfold connect4_playoutStep
    dsimp only
    split
    · intro h; omega
    · split
      · intro h; omega
      · split
        · intro h; omega
        · split
          · intro h; omega
          · split
            · -- fully expanded node: UCB selection then recursion
              split
              · intro h; omega
              · rename_i hreal0 hreal1 hreal2 hreal3 hopt hsel play c1 heq
                dsimp only
                intro habort
                rw [habort]
                rw [if_neg (by omega)]
                rw [connect4_backupIncrement_abort, connect4_addScore_zero]
                refine connect4_sameTree_trans (ih c1 _ _ _ habort) ?_
                have hst := connect4_ucbSelect_sameTree c (c.nodes node) (st 0 ||| st 1)
                rw [heq] at hst
                exact hst
            · -- expansion of an untried column
              rename_i hreal0 hreal1 hreal2 hreal3 hopt
              split
              · intro h; omega
              · intro h
                dsimp only at h
                omega
              · -- unresolved: allocation attempted
                split
                · -- a single untried option, picked without a draw
                  rename_i hcheck hlen1
                  split
                  · -- allocation failed: the aborted path
                    rename_i hnull
                    intro _
                    have hmem : ((List.finRange 7).filter
                        (fun i => (c.nodes node).next i == CONNECT4_NULL &&
                          connect4_valid (st 0 ||| st 1) i)).getD 0 0
                        ∈ (List.finRange 7).filter
                          (fun i => (c.nodes node).next i == CONNECT4_NULL &&
                            connect4_valid (st 0 ||| st 1) i) :=
                      connect4_getD_mem (by omega) 0
                    have hprops := connect4_pick_untried c node (st 0 ||| st 1) _ hmem
                    have ha2 := connect4_alloc_null c hnull
                    rw [hnull, ha2, connect4_setNext_self c node _ CONNECT4_NULL hprops.1]
                    exact connect4_sameTree_refl c
                  · -- allocation succeeded: the rollout never returns the aborted code
                    intro h
                    exact absurd h (connect4_rollout_ne_abort _ _ _ _ _ _ _)
                · -- the untried option is picked with a random draw
                  rename_i hcheck hlen1
                  split
                  · rename_i hnull
                    intro _
                    have hlpos : 0 < ((List.finRange 7).filter
                        (fun i => (c.nodes node).next i == CONNECT4_NULL &&
                          connect4_valid (st 0 ||| st 1) i)).length := by omega
                    have hmem : ((List.finRange 7).filter
                        (fun i => (c.nodes node).next i == CONNECT4_NULL &&
                          connect4_valid (st 0 ||| st 1) i)).getD
                        ((xoroshiro128plus c.rng).1 % ((List.finRange 7).filter
                          (fun i => (c.nodes node).next i == CONNECT4_NULL &&
                            connect4_valid (st 0 ||| st 1) i)).length) 0
                        ∈ (List.finRange 7).filter
                          (fun i => (c.nodes node).next i == CONNECT4_NULL &&
                            connect4_valid (st 0 ||| st 1) i) :=
                      connect4_getD_mem (Nat.mod_lt _ hlpos) 0
                    have hprops := connect4_pick_untried c node (st 0 ||| st 1) _ hmem
                    have ha2 := connect4_alloc_null _ hnull
                    rw [hnull, ha2]
                    rw [connect4_setNext_self
                      ({ c with rng := (xoroshiro128plus c.rng).2 }) node _
                      CONNECT4_NULL hprops.1]
                    exact ⟨rfl, rfl, rfl, rfl, rfl, rfl, rfl⟩
                  · intro h
                    exact absurd h (connect4_rollout_ne_abort _ _ _ _ _ _ _)

/-! ## The per-node statistics invariant -/

theorem connect4_resetNode_inv : connect4_nodeInv connect4_resetNode := by
  intro i
  simp [connect4_resetNode]

/-- `connect4_addScore` changes no visit count and no child
reference. -/
theorem connect4_addScore_fields (c : Connect4AI) (node : Nat) (play : Fin 7)
    (amt : Rat) (x : Nat) :
    ((connect4_addScore c node play amt).nodes x).playouts = (c.nodes x).playouts ∧
    ((connect4_addScore c node play amt).nodes x).next = (c.nodes x).next := by
  unfold connect4_addScore
  dsimp only
  by_cases hx : x = node
  · subst hx
    rw [Function.update_same]
    exact ⟨rfl, rfl⟩
  · rw [Function.update_noteq hx]
    exact ⟨rfl, rfl⟩

theorem connect4_addScore_inv (c : Connect4AI) (node : Nat) (play : Fin 7) (amt : Rat)
    (h : ∀ x, connect4_nodeInv (c.nodes x)) :
    ∀ x, connect4_nodeInv ((connect4_addScore c node play amt).nodes x) := by
  intro x i
  rw [(connect4_addScore_fields c node play amt x).1,
    (connect4_addScore_fields c node play amt x).2]
  exact h x i

theorem connect4_rollout_succ (fuel : Nat) (c : Connect4AI) (node : Nat)
    (copy : Fin 2 → Nat) (turn : Fin 2) (op : Fin 7) (ot : Fin 2) :
    connect4_rollout (fuel + 1) c node copy turn op ot =
      connect4_rolloutStep
        (fun c2 copy2 turn2 => connect4_rollout fuel c2 node copy2 turn2 op ot)
        c node copy turn op ot := rfl

theorem connect4_playout_succ (fuel : Nat) (c : Connect4AI) (node : Nat)
    (st : Fin 2 → Nat) (turn : Fin 2) :
    connect4_playout (fuel + 1) c node st turn =
      connect4_playoutStep (connect4_playout fuel) (connect4_rollout fuel)
        c node st turn := rfl

/-- The rollout writes only the score of `original_play` at `node` (and
the generator words): every visit count and child reference in the
arena, and every record of a node other than `node`, is unchanged. -/
theorem connect4_rollout_frame :
    ∀ (fuel : Nat) (c : Connect4AI) (node : Nat) (copy : Fin 2 → Nat) (turn : Fin 2)
      (op : Fin 7) (ot : Fin 2),
    (∀ x, x ≠ node → (connect4_rollout fuel c node copy turn op ot).2.nodes x = c.nodes x) ∧
    (∀ x, ((connect4_rollout fuel c node copy turn op ot).2.nodes x).playouts
        = (c.nodes x).playouts ∧
      ((connect4_rollout fuel c node copy turn op ot).2.nodes x).next = (c.nodes x).next) ∧
    (connect4_rollout fuel c node copy turn op ot).2.root = c.root ∧
    (connect4_rollout fuel c node copy turn op ot).2.free = c.free ∧
    (connect4_rollout fuel c node copy turn op ot).2.nodes_allocated = c.nodes_allocated ∧
    (connect4_rollout fuel c node copy turn op ot).2.nodes_available = c.nodes_available ∧
    (connect4_rollout fuel c node copy turn op ot).2.state = c.state ∧
    (connect4_rollout fuel c node copy turn op ot).2.turn = c.turn := by
  intro fuel
  induction fuel with
  | zero =>
    intro c node copy turn op ot
    exact ⟨fun x _ => rfl, fun x => ⟨rfl, rfl⟩, rfl, rfl, rfl, rfl, rfl, rfl⟩
  | succ fuel ih =>
    intro c node copy turn op ot
    rw [connect4_rollout_succ]
    unfold connect4_rolloutStep
    dsimp only
    split
    · exact ⟨fun x _ => rfl, fun x => ⟨rfl, rfl⟩, rfl, rfl, rfl, rfl, rfl, rfl⟩
    · split
      · -- unresolved: continue the loop
        split
        · exact ih _ _ _ _ _ _
        · obtain ⟨f1, f2, f3, f4, f5, f6, f7, f8⟩ := ih
            { c with rng := (xoroshiro128plus c.rng).2 } node _ _ op ot
          exact ⟨f1, f2, f3, f4, f5, f6, f7, f8⟩
      · -- draw: score credit on the expanded edge
        split
        · refine ⟨?_, ?_, rfl, rfl, rfl, rfl, rfl, rfl⟩
          · intro x hx
            unfold connect4_addScore
            dsimp only
            rw [Function.update_noteq hx]
          · intro x
            exact connect4_addScore_fields _ _ _ _ x
        · refine ⟨?_, ?_, rfl, rfl, rfl, rfl, rfl, rfl⟩
          · intro x hx
            unfold connect4_addScore
            dsimp only
            rw [Function.update_noteq hx]
          · intro x
            exact connect4_addScore_fields _ _ _ _ x
      · -- win: score credit when the simulated winner is the mover
        split
        · split
          · refine ⟨?_, ?_, rfl, rfl, rfl, rfl, rfl, rfl⟩
            · intro x hx
              unfold connect4_addScore
              dsimp only
              rw [Function.update_noteq hx]
            · intro x
              exact connect4_addScore_fields _ _ _ _ x
          · refine ⟨?_, ?_, rfl, rfl, rfl, rfl, rfl, rfl⟩
            · intro x hx
              unfold connect4_addScore
              dsimp only
              rw [Function.update_noteq hx]
            · intro x
              exact connect4_addScore_fields _ _ _ _ x
        · split
          · exact ⟨fun x _ => rfl, fun x => ⟨rfl, rfl⟩, rfl, rfl, rfl, rfl, rfl, rfl⟩
          · exact ⟨fun x _ => rfl, fun x => ⟨rfl, rfl⟩, rfl, rfl, rfl, rfl, rfl, rfl⟩

/-! ## Characterization of the UCB selection scan -/

theorem connect4_scanStep_inv (n : Connect4Node) (taken : Nat) (numerator : Real)
    (acc : Nat × Option Real × List (Fin 7)) (seen : List (Fin 7)) (i : Fin 7)
    (h : connect4_scanInv n taken numerator acc seen) :
    connect4_scanInv n taken numerator
      (connect4_ucbScanStep n taken numerator acc i) (seen ++ [i]) := by
  obtain ⟨hnone, hsome⟩ := h
  unfold connect4_ucbScanStep
  by_cases hvi : connect4_valid taken i = true
  · rw [if_pos hvi]
    dsimp only
    rcases hacc : acc.2.1 with _ | bv
    · obtain ⟨hb, hseen⟩ := hnone hacc
      constructor
      · intro hcon
        simp at hcon
      · intro bw hbw
        simp only [Option.some.injEq] at hbw
        refine ⟨by simp, ?_, ?_, ?_⟩
        · intro j hj
          simp only [List.mem_singleton] at hj
          subst hj
          exact ⟨List.mem_append.mpr (Or.inr (by simp)), hvi, hbw⟩
        · intro j hj hv
          rcases List.mem_append.mp hj with hj | hj
          · rw [hseen j hj] at hv
            cases hv
          · simp only [List.mem_singleton] at hj
            subst hj
            exact le_of_eq hbw
        · intro j hj hv he
          rcases List.mem_append.mp hj with hj | hj
          · rw [hseen j hj] at hv
            cases hv
          · simp only [List.mem_singleton] at hj
            subst hj
            simp
    · obtain ⟨hne, hmem, hbound, hcomp⟩ := hsome bv hacc
      dsimp only
      by_cases hgt : connect4_ucbValue n numerator i > bv
      · rw [if_pos hgt]
        constructor
        · intro hcon
          simp at hcon
        · intro bw hbw
          simp only [Option.some.injEq] at hbw
          refine ⟨by simp, ?_, ?_, ?_⟩
          · intro j hj
            simp only [List.mem_singleton] at hj
            subst hj
            exact ⟨List.mem_append.mpr (Or.inr (by simp)), hvi, hbw⟩
          · intro j hj hv
            rcases List.mem_append.mp hj with hj | hj
            · exact le_of_lt (lt_of_le_of_lt (hbound j hj hv) (hbw ▸ hgt))
            · simp only [List.mem_singleton] at hj
              subst hj
              exact le_of_eq hbw
          · intro j hj hv he
            rcases List.mem_append.mp hj with hj | hj
            · exact absurd (he ▸ hbound j hj hv) (by rw [hbw] at hgt; exact not_le.mpr hgt)
            · simp only [List.mem_singleton] at hj
              subst hj
              simp
      · rw [if_neg hgt]
        by_cases heq : connect4_ucbValue n numerator i = bv
        · rw [if_pos heq]
          constructor
          · intro hcon
            simp at hcon
          · intro bw hbw
            simp only [Option.some.injEq] at hbw
            subst hbw
            refine ⟨by simp [hne], ?_, ?_, ?_⟩
            · intro j hj
              rcases List.mem_append.mp hj with hj | hj
              · obtain ⟨hs, hv, he⟩ := hmem j hj
                exact ⟨List.mem_append.mpr (Or.inl hs), hv, he⟩
              · simp only [List.mem_singleton] at hj
                subst hj
                exact ⟨List.mem_append.mpr (Or.inr (by simp)), hvi, heq⟩
            · intro j hj hv
              rcases List.mem_append.mp hj with hj | hj
              · exact hbound j hj hv
              · simp only [List.mem_singleton] at hj
                subst hj
                exact le_of_eq heq
            · intro j hj hv he
              rcases List.mem_append.mp hj with hj | hj
              · exact List.mem_append.mpr (Or.inl (hcomp j hj hv he))
              · simp only [List.mem_singleton] at hj
                subst hj
                exact List.mem_append.mpr (Or.inr (by simp))
        · rw [if_neg heq]
          constructor
          · intro hcon
            simp at hcon
          · intro bw hbw
            simp only [Option.some.injEq] at hbw
            subst hbw
            refine ⟨hne, ?_, ?_, ?_⟩
            · intro j hj
              obtain ⟨hs, hv, he⟩ := hmem j hj
              exact ⟨List.mem_append.mpr (Or.inl hs), hv, he⟩
            · intro j hj hv
              rcases List.mem_append.mp hj with hj | hj
              · exact hbound j hj hv
              · simp only [List.mem_singleton] at hj
                subst hj
                exact le_of_not_lt hgt
            · intro j hj hv he
              rcases List.mem_append.mp hj with hj | hj
              · exact hcomp j hj hv he
              · simp only [List.mem_singleton] at hj
                subst hj
                exact absurd he heq
  · rw [if_neg hvi]
    constructor
    · intro hn
      obtain ⟨h1, h2⟩ := hnone hn
      refine ⟨h1, ?_⟩
      intro j hj
      rcases List.mem_append.mp hj with hj | hj
      · exact h2 j hj
      · simp only [List.mem_singleton] at hj
        subst hj
        simpa using hvi
    · intro bv hbv
      obtain ⟨h1, h2, h3, h4⟩ := hsome bv hbv
      refine ⟨h1, ?_, ?_, ?_⟩
      · intro j hj
        obtain ⟨hs, hv, he⟩ := h2 j hj
        exact ⟨List.mem_append.mpr (Or.inl hs), hv, he⟩
      · intro j hj hv
        rcases List.mem_append.mp hj with hj | hj
        · exact h3 j hj hv
        · simp only [List.mem_singleton] at hj
          subst hj
          exact absurd hv (by simpa using hvi)
      · intro j hj hv he
        rcases List.mem_append.mp hj with hj | hj
        · exact h4 j hj hv he
        · simp only [List.mem_singleton] at hj
          subst hj
          exact absurd hv (by simpa using hvi)

theorem connect4_scan_fold_inv (n : Connect4Node) (taken : Nat) (numerator : Real) :
    ∀ (il : List (Fin 7)) (acc : Nat × Option Real × List (Fin 7)) (seen : List (Fin 7)),
    connect4_scanInv n taken numerator acc seen →
    connect4_scanInv n taken numerator
      (il.foldl (connect4_ucbScanStep n taken numerator) acc) (seen ++ il) := by
  intro il
  induction il with
  | nil =>
    intro acc seen h
    simpa using h
  | cons i is ihl =>
    intro acc seen h
    have h2 := connect4_scanStep_inv n taken numerator acc seen i h
    have h3 := ihl _ _ h2
    rw [List.foldl_cons]
    simpa using h3

theorem connect4_ucbScan_inv (n : Connect4Node) (taken : Nat) (numerator : Real)
    (total0 : Nat) :
    connect4_scanInv n taken numerator
      (connect4_ucbScan n taken numerator total0) (List.finRange 7) := by
  have h0 : connect4_scanInv n taken numerator (total0, none, ([] : List (Fin 7))) [] := by
    constructor
    · intro _
      exact ⟨rfl, by intro j hj; cases hj⟩
    · intro bv h
      cases h
  have h := connect4_scan_fold_inv n taken numerator (List.finRange 7) _ [] h0
  simpa [connect4_ucbScan] using h

theorem connect4_scan_best_valid (n : Connect4Node) (taken : Nat) (numerator : Real)
    (total0 : Nat) :
    ∀ i ∈ (connect4_ucbScan n taken numerator total0).2.2,
      connect4_valid taken (i : Nat) = true := by
  intro i hi
  have hinv := connect4_ucbScan_inv n taken numerator total0
  rcases hbv : (connect4_ucbScan n taken numerator total0).2.1 with _ | bv
  · obtain ⟨hb, _⟩ := hinv.1 hbv
    rw [hb] at hi
    cases hi
  · exact ((hinv.2 bv hbv).2.1 i hi).2.1

theorem connect4_scanStep_total (n : Connect4Node) (taken : Nat) (numerator : Real)
    (acc : Nat × Option Real × List (Fin 7)) (i : Fin 7) :
    (connect4_ucbScanStep n taken numerator acc i).1 =
      if connect4_valid taken i then acc.1 + n.playouts i else acc.1 := by
  unfold connect4_ucbScanStep
  by_cases hvi : connect4_valid taken i = true
  · rw [if_pos hvi, if_pos hvi]
    dsimp only
    rcases hacc : acc.2.1 with _ | bv
    · rfl
    · dsimp only
      split
      · rfl
      · split
        · rfl
        · rfl
  · rw [if_neg hvi, if_neg hvi]

theorem connect4_scan_fold_total (n : Connect4Node) (taken : Nat) (numerator : Real) :
    ∀ (il : List (Fin 7)) (acc : Nat × Option Real × List (Fin 7)),
    (il.foldl (connect4_ucbScanStep n taken numerator) acc).1 =
      il.foldl
        (fun t (i : Fin 7) => if connect4_valid taken i then t + n.playouts i else t)
        acc.1 := by
  intro il
  induction il with
  | nil =>
    intro acc
    rfl
  | cons i is ihl =>
    intro acc
    rw [List.foldl_cons, List.foldl_cons, ihl, connect4_scanStep_total]

theorem connect4_total_fold_add (n : Connect4Node) (taken : Nat) :
    ∀ (il : List (Fin 7)) (t : Nat),
    il.foldl (fun t (i : Fin 7) => if connect4_valid taken i then t + n.playouts i else t) t =
      t + il.foldl
        (fun t (i : Fin 7) => if connect4_valid taken i then t + n.playouts i else t) 0 := by
  intro il
  induction il with
  | nil =>
    intro t
    simp
  | cons i is ihl =>
    intro t
    rw [List.foldl_cons, List.foldl_cons, ihl,
      ihl (if connect4_valid taken (i : Nat) then 0 + n.playouts i else 0)]
    by_cases hvi : connect4_valid taken (i : Nat) = true
    · rw [if_pos hvi, if_pos hvi]
      omega
    · rw [if_neg hvi, if_neg hvi]
      omega

/-- The literal re-accumulation of the source: the `total` variable,
already holding the preliminary sum of legal visit counts when the
selection scan starts, ends the scan at twice that sum — and the
`numerator` used inside the scan was computed from the preliminary
value, so the re-accumulation never influences a selection. -/
theorem connect4_ucbScan_total (n : Connect4Node) (taken : Nat) (numerator : Real) :
    (connect4_ucbScan n taken numerator (connect4_ucbTotal n taken)).1 =
      2 * connect4_ucbTotal n taken := by
  unfold connect4_ucbScan
  rw [connect4_scan_fold_total]
  show (List.finRange 7).foldl _ (connect4_ucbTotal n taken) = _
  rw [connect4_total_fold_add]
  have h : (List.finRange 7).foldl
      (fun t (i : Fin 7) => if connect4_valid taken i then t + n.playouts i else t) 0 =
      connect4_ucbTotal n taken := rfl
  rw [h]
  omega

theorem connect4_ucbSelect_mem (c : Connect4AI) (n : Connect4Node) (taken : Nat)
    (play : Fin 7) (c1 : Connect4AI)
    (h : connect4_ucbSelect c n taken = (some play, c1)) :
    play ∈ (connect4_ucbScan n taken
      (CONNECT4_C * Real.log ((connect4_ucbTotal n taken : Nat) : Real))
      (connect4_ucbTotal n taken)).2.2 := by
  unfold connect4_ucbSelect at h
  dsimp only at h
  split at h
  · rename_i hlen
    rw [Prod.mk.injEq] at h
    obtain ⟨h1, _⟩ := h
    rw [Option.some.injEq] at h1
    rw [← h1]
    exact connect4_getD_mem (by omega) 0
  · split at h
    · rw [Prod.mk.injEq] at h
      obtain ⟨h1, _⟩ := h
      cases h1
    · rename_i hlen1 hlen0
      rw [Prod.mk.injEq] at h
      obtain ⟨h1, _⟩ := h
      rw [Option.some.injEq] at h1
      rw [← h1]
      exact connect4_getD_mem (Nat.mod_lt _ (by omega)) 0

/-! ## Preservation of the per-node invariant by a playout -/

theorem connect4_pick_snd_nodes {P : Prop} [inst : Decidable P] (a b : Fin 7)
    (c : Connect4AI) (z : Nat × Nat) :
    ((if P then (a, c) else (b, { c with rng := z })).2).nodes = c.nodes := by
  split <;> rfl

theorem connect4_addScore_noteq (c : Connect4AI) (node : Nat) (play : Fin 7) (amt : Rat)
    (x : Nat) (hx : x ≠ node) :
    (connect4_addScore c node play amt).nodes x = c.nodes x := by
  unfold connect4_addScore
  dsimp only
  rw [Function.update_noteq hx]

/-- Setting a fresh non-empty child reference together with the visit
bump keeps the per-node invariant, whatever happens to the scores. -/
theorem connect4_nodeInv_expand (m : Connect4Node) (play : Fin 7) (v : Nat)
    (sc : Fin 7 → Rat) (hm : connect4_nodeInv m) (hv : v ≠ CONNECT4_NULL) :
    connect4_nodeInv
      { next := Function.update m.next play v
        playouts := Function.update m.playouts play (m.playouts play + 1)
        score := sc } := by
  intro i
  dsimp only
  by_cases hip : i = play
  · subst hip
    rw [Function.update_same, Function.update_same]
    exact ⟨fun _ => hv, fun _ => by omega⟩
  · rw [Function.update_noteq hip, Function.update_noteq hip]
    exact hm i

/-- Bumping the visit count of a column whose child reference is
already non-empty keeps the per-node invariant. -/
theorem connect4_nodeInv_bump (m : Connect4Node) (play : Fin 7)
    (sc : Fin 7 → Rat) (hm : connect4_nodeInv m) (hne : m.next play ≠ CONNECT4_NULL) :
    connect4_nodeInv
      { next := m.next
        playouts := Function.update m.playouts play (m.playouts play + 1)
        score := sc } := by
  intro i
  dsimp only
  by_cases hip : i = play
  · subst hip
    rw [Function.update_same]
    exact ⟨fun _ => hne, fun _ => by omega⟩
  · rw [Function.update_noteq hip]
    exact hm i

/-- The combined node-pool effect of the terminal-expansion write
sequence: bump, score credit, then child-reference store, all at the
same node and column. -/
theorem connect4_expand_nodes (c1 : Connect4AI) (node : Nat) (play : Fin 7)
    (amt : Rat) (s : Nat) :
    (connect4_setNext
        (connect4_addScore (connect4_bumpPlayouts c1 node play) node play amt)
        node play s).nodes =
      Function.update c1.nodes node
        { next := Function.update (c1.nodes node).next play s
          playouts := Function.update (c1.nodes node).playouts play
            ((c1.nodes node).playouts play + 1)
          score := Function.update (c1.nodes node).score play
            ((c1.nodes node).score play + amt) } := by
  unfold connect4_setNext connect4_addScore connect4_bumpPlayouts
  dsimp only
  simp only [Function.update_same, Function.update_idem]

/-- The combined node-pool effect of storing a child reference and then
bumping the visit count at the same node and column. -/
theorem connect4_bump_setNext_nodes (c2 : Connect4AI) (node : Nat) (play : Fin 7)
    (v : Nat) :
    (connect4_bumpPlayouts (connect4_setNext c2 node play v) node play).nodes =
      Function.update c2.nodes node
        { next := Function.update (c2.nodes node).next play v
          playouts := Function.update (c2.nodes node).playouts play
            ((c2.nodes node).playouts play + 1)
          score := (c2.nodes node).score } := by
  unfold connect4_bumpPlayouts connect4_setNext
  dsimp only
  simp only [Function.update_same, Function.update_idem]

/-- The combined node-pool effect of the backup write sequence of the
fully-expanded branch: visit bump then score credit. -/
theorem connect4_addScore_bump_nodes (c2 : Connect4AI) (node : Nat) (play : Fin 7)
    (amt : Rat) :
    (connect4_addScore (connect4_bumpPlayouts c2 node play) node play amt).nodes =
      Function.update c2.nodes node
        { next := (c2.nodes node).next
          playouts := Function.update (c2.nodes node).playouts play
            ((c2.nodes node).playouts play + 1)
          score := Function.update (c2.nodes node).score play
            ((c2.nodes node).score play + amt) } := by
  unfold connect4_addScore connect4_bumpPlayouts
  dsimp only
  simp only [Function.update_same, Function.update_idem]

/-- At a node satisfying the invariant with no untried legal column,
every legal column has a nonzero visit count. -/
theorem connect4_fullyExpanded_playouts (n : Connect4Node) (taken : Nat)
    (hopt : ((List.finRange 7).filter
      (fun i => n.next i == CONNECT4_NULL && connect4_valid taken i)).length = 0)
    (hinv : connect4_nodeInv n) :
    ∀ i : Fin 7, connect4_valid taken (i : Nat) = true → n.playouts i ≠ 0 := by
  intro i hv hz
  have hnull : n.next i = CONNECT4_NULL := by
    by_contra hne
    exact ((hinv i).mpr hne) hz
  have hmem : i ∈ (List.finRange 7).filter
      (fun i => n.next i == CONNECT4_NULL && connect4_valid taken i) := by
    refine List.mem_filter.mpr ⟨List.mem_finRange i, ?_⟩
    rw [hnull]
    simp [hv]
  have := List.length_pos_of_mem hmem
  omega

theorem connect4_mem_flatten_comp (il : List (Fin 7)) (ls : Fin 7 → List Nat)
    (i : Fin 7) (hi : i ∈ il) (x : Nat) (hx : x ∈ ls i) : x ∈ (il.map ls).flatten :=
  List.mem_flatten.mpr ⟨ls i, List.mem_map_of_mem ls hi, hx⟩

theorem connect4_nodup_comp (il : List (Fin 7)) (ls : Fin 7 → List Nat)
    (i : Fin 7) (hi : i ∈ il) (hnd : ((il.map ls).flatten).Nodup) : (ls i).Nodup :=
  hnd.sublist (List.sublist_flatten_of_mem (List.mem_map_of_mem ls hi))

/-- The successful-allocation expansion (child-reference store, visit
bump, one rollout) preserves the invariant everywhere and writes only
the expanding node and the popped free-list head. -/
theorem connect4_expandAlloc_inv (fuel : Nat) (c c1 : Connect4AI) (node : Nat)
    (copy : Fin 2 → Nat) (turn : Fin 2) (play : Fin 7) (ns flist : List Nat)
    (hn1 : c1.nodes = c.nodes) (hf1 : c1.free = c.free)
    (hchain : connect4_chainTo c.nodes c.free flist CONNECT4_NULL)
    (hdisj : ∀ x ∈ ns, x ∉ flist)
    (hnode : node ∈ ns)
    (hinv : ∀ x, connect4_nodeInv (c.nodes x))
    (hane : (connect4_alloc c1).1 ≠ CONNECT4_NULL) :
    (∀ x, connect4_nodeInv
      ((connect4_rollout fuel
        (connect4_bumpPlayouts
          (connect4_setNext (connect4_alloc c1).2 node play (connect4_alloc c1).1)
          node play)
        node copy turn play turn).2.nodes x)) ∧
    (∀ x, x ∉ ns → x ∉ flist →
      (connect4_rollout fuel
        (connect4_bumpPlayouts
          (connect4_setNext (connect4_alloc c1).2 node play (connect4_alloc c1).1)
          node play)
        node copy turn play turn).2.nodes x = c.nodes x) := by
  have ha1 : (connect4_alloc c1).1 = c1.free := by
    unfold connect4_alloc
    dsimp only
    split <;> rfl
  have hfne : c1.free ≠ CONNECT4_NULL := by
    rw [ha1] at hane
    exact hane
  have haeq : (connect4_alloc c1).2 =
      { c1 with
        nodes_allocated := c1.nodes_allocated + 1
        free := (c1.nodes c1.free).next 0
        nodes := Function.update c1.nodes c1.free connect4_resetNode } := by
    unfold connect4_alloc
    dsimp only
    rw [if_neg hfne]
  have hflcons : ∃ rest, flist = c.free :: rest := by
    cases flist with
    | nil =>
      have h0 : c.free = CONNECT4_NULL := hchain
      exact absurd (hf1.trans h0) hfne
    | cons h rest =>
      obtain ⟨hh, _⟩ := hchain
      exact ⟨rest, by rw [hh]⟩
  obtain ⟨rest, hfl⟩ := hflcons
  have hfree_mem : c.free ∈ flist := by
    rw [hfl]
    exact List.mem_cons_self _ _
  have hfree_ne_node : c.free ≠ node := fun he => hdisj node hnode (he ▸ hfree_mem)
  have hnf : node ≠ c1.free := by
    rw [hf1]
    exact fun he => hfree_ne_node he.symm
  have ha2nodes : (connect4_alloc c1).2.nodes =
      Function.update c1.nodes c1.free connect4_resetNode := by
    rw [haeq]
  have ha2node : (connect4_alloc c1).2.nodes node = c.nodes node := by
    rw [ha2nodes, Function.update_noteq hnf, hn1]
  obtain ⟨rf1, rf2, _⟩ := connect4_rollout_frame fuel
    (connect4_bumpPlayouts
      (connect4_setNext (connect4_alloc c1).2 node play (connect4_alloc c1).1)
      node play)
    node copy turn play turn
  have hC3inv : ∀ x, connect4_nodeInv
      ((connect4_bumpPlayouts
        (connect4_setNext (connect4_alloc c1).2 node play (connect4_alloc c1).1)
        node play).nodes x) := by
    intro x
    rw [connect4_bump_setNext_nodes]
    by_cases hx : x = node
    · rw [hx, Function.update_same, ha2node]
      exact connect4_nodeInv_expand (c.nodes node) play _ _ (hinv node) hane
    · rw [Function.update_noteq hx, ha2nodes]
      by_cases hxf : x = c1.free
      · subst hxf
        rw [Function.update_same]
        exact connect4_resetNode_inv
      · rw [Function.update_noteq hxf, hn1]
        exact hinv x
  constructor
  · intro x i
    rw [(rf2 x).1, (rf2 x).2]
    exact hC3inv x i
  · intro x hxns hxf
    have hxnode : x ≠ node := fun he => hxns (he ▸ hnode)
    have hxfree : x ≠ c1.free := by
      rw [hf1]
      exact fun he => hxf (he ▸ hfree_mem)
    rw [rf1 x hxnode, connect4_bump_setNext_nodes, Function.update_noteq hxnode,
      ha2nodes, Function.update_noteq hxfree, hn1]

/-- A playout preserves the per-node visit/reference invariant at every
node and modifies no node record outside the playout tree and the free
list, provided the state is arena-consistent: the tree below `node` is
represented by the duplicate-free preorder list `ns`, the free list is
a chain through `flist` disjoint from `ns`, and every node satisfies
the invariant. -/
theorem connect4_playout_inv :
    ∀ (fuel : Nat) (c : Connect4AI) (node : Nat) (st : Fin 2 → Nat) (turn : Fin 2)
      (tf : Nat) (ns flist : List Nat),
    connect4_subtree tf c node ns → ns.Nodup →
    connect4_chainTo c.nodes c.free flist CONNECT4_NULL →
    (∀ x ∈ ns, x ∉ flist) →
    (∀ x, connect4_nodeInv (c.nodes x)) →
    connect4_invFrame c (connect4_playout fuel c node st turn).2 ns flist := by
  intro fuel
  induction fuel with
  | zero =>
    intro c node st turn tf ns flist hrep hnd hchain hdisj hinv
    exact ⟨hinv, fun x _ _ => rfl⟩
  | succ fuel ih =>
    intro c node st turn tf ns flist hrep hnd hchain hdisj hinv
    rw [connect4_playout_succ]
    unfold connect4_playoutStep
    dsimp only
    by_cases hreal0 : node = CONNECT4_WIN0
    · rw [if_pos hreal0]
      exact ⟨hinv, fun x _ _ => rfl⟩
    rw [if_neg hreal0]
    by_cases hreal1 : node = CONNECT4_WIN1
    · rw [if_pos hreal1]
      exact ⟨hinv, fun x _ _ => rfl⟩
    rw [if_neg hreal1]
    by_cases hreal2 : node = CONNECT4_DRAW
    · rw [if_pos hreal2]
      exact ⟨hinv, fun x _ _ => rfl⟩
    rw [if_neg hreal2]
    by_cases hreal3 : node = CONNECT4_NULL
    · rw [if_pos hreal3]
      exact ⟨hinv, fun x _ _ => rfl⟩
    rw [if_neg hreal3]
    cases hrep with
    | sentinel _ _ _ hs =>
      rcases hs with rfl | rfl | rfl | rfl
      · exact absurd rfl hreal0
      · exact absurd rfl hreal1
      · exact absurd rfl hreal2
      · exact absurd rfl hreal3
    | real tf1 _ _ ls hlt hch =>
      rw [List.nodup_cons] at hnd
      obtain ⟨hnodef, hflnd⟩ := hnd
      have hndisj : node ∉ flist := hdisj node (List.mem_cons_self node _)
      have hsubmem : ∀ (i : Fin 7), ∀ x ∈ ls i, x ∈ ((List.finRange 7).map ls).flatten :=
        fun i x hx => connect4_mem_flatten_comp _ ls i (List.mem_finRange i) x hx
      by_cases hopt : ((List.finRange 7).filter
          (fun i => (c.nodes node).next i == CONNECT4_NULL &&
            connect4_valid (st 0 ||| st 1) i)).length = 0
      · -- no untried legal column: UCB selection and recursion
        rw [if_pos hopt]
        rcases heq : connect4_ucbSelect c (c.nodes node) (st 0 ||| st 1) with ⟨o, c1⟩
        have hst := connect4_ucbSelect_sameTree c (c.nodes node) (st 0 ||| st 1)
        rw [heq] at hst
        have hn1 : c1.nodes = c.nodes := hst.1
        have hf1 : c1.free = c.free := hst.2.2.1
        cases o with
        | none =>
          dsimp only
          constructor
          · rw [hn1]
            exact hinv
          · intro x _ _
            rw [hn1]
        | some play =>
          dsimp only
          have hmem := connect4_ucbSelect_mem c (c.nodes node) (st 0 ||| st 1)
            play c1 heq
          have hvalid := connect4_scan_best_valid (c.nodes node) (st 0 ||| st 1)
            _ _ play hmem
          have hne : (c.nodes node).next play ≠ CONNECT4_NULL := by
            intro hnull
            have hmem2 : play ∈ (List.finRange 7).filter
                (fun i => (c.nodes node).next i == CONNECT4_NULL &&
                  connect4_valid (st 0 ||| st 1) i) := by
              refine List.mem_filter.mpr ⟨List.mem_finRange play, ?_⟩
              rw [hnull]
              simp [hvalid]
            have := List.length_pos_of_mem hmem2
            omega
          have hrep1 : connect4_subtree tf1 c1 ((c.nodes node).next play) (ls play) :=
            connect4_subtree_congr (hch play) c1 (fun j _ => by rw [hn1])
          have hnd1 : (ls play).Nodup :=
            connect4_nodup_comp _ ls play (List.mem_finRange play) hflnd
          have hchain1 : connect4_chainTo c1.nodes c1.free flist CONNECT4_NULL := by
            rw [hn1, hf1]
            exact hchain
          have hdisj1 : ∀ x ∈ ls play, x ∉ flist :=
            fun x hx => hdisj x (List.mem_cons_of_mem node (hsubmem play x hx))
          have hinv1 : ∀ x, connect4_nodeInv (c1.nodes x) := by
            rw [hn1]
            exact hinv
          obtain ⟨hinvR, hframeR⟩ := ih c1 ((c.nodes node).next play)
            (Function.update st turn
              (st turn ||| 1 <<< connect4_drop (st 0 ||| st 1) ↑play))
            (1 - turn) tf1 (ls play) flist hrep1 hnd1 hchain1 hdisj1 hinv1
          have hnonsub : node ∉ ls play := fun hm3 => hnodef (hsubmem play node hm3)
          have hpres : (connect4_playout fuel c1 ((c.nodes node).next play)
              (Function.update st turn
                (st turn ||| 1 <<< connect4_drop (st 0 ||| st 1) ↑play))
              (1 - turn)).2.nodes node = c.nodes node := by
            rw [hframeR node hnonsub hndisj, hn1]
          split
          · -- non-negative winner: visit bump then score credit
            constructor
            · rw [connect4_addScore_bump_nodes]
              intro x
              by_cases hx : x = node
              · rw [hx, Function.update_same]
                refine connect4_nodeInv_bump _ play _ (hinvR node) ?_
                rw [hpres]
                exact hne
              · rw [Function.update_noteq hx]
                exact hinvR x
            · rw [connect4_addScore_bump_nodes]
              intro x hxns hxf
              have hxnode : x ≠ node :=
                fun he => hxns (he ▸ List.mem_cons_self node _)
              rw [Function.update_noteq hxnode,
                hframeR x
                  (fun hm3 => hxns (List.mem_cons_of_mem node (hsubmem play x hm3)))
                  hxf, hn1]
          · -- aborted or fault: score credit only
            constructor
            · exact connect4_addScore_inv _ node play _ hinvR
            · intro x hxns hxf
              have hxnode : x ≠ node :=
                fun he => hxns (he ▸ List.mem_cons_self node _)
              rw [connect4_addScore_noteq _ node play _ x hxnode,
                hframeR x
                  (fun hm3 => hxns (List.mem_cons_of_mem node (hsubmem play x hm3)))
                  hxf, hn1]
      · -- expansion of an untried column
        rw [if_neg hopt]
        by_cases hlen1 : ((List.finRange 7).filter
            (fun i => (c.nodes node).next i == CONNECT4_NULL &&
              connect4_valid (st 0 ||| st 1) i)).length = 1
        · -- a single untried option, picked without a random draw
          rw [if_pos hlen1]
          dsimp only
          split
          · -- immediate terminal draw
            constructor
            · rw [connect4_expand_nodes]
              intro x
              by_cases hx : x = node
              · rw [hx, Function.update_same]
                exact connect4_nodeInv_expand _ _ _ _ (hinv node) (by decide)
              · rw [Function.update_noteq hx]
                exact hinv x
            · rw [connect4_expand_nodes]
              intro x hxns _
              have hxnode : x ≠ node :=
                fun he => hxns (he ▸ List.mem_cons_self node _)
              rw [Function.update_noteq hxnode]
          · -- immediate terminal win
            have hv : (if turn = 1 then CONNECT4_WIN1 else CONNECT4_WIN0)
                ≠ CONNECT4_NULL := by
              split <;> decide
            constructor
            · rw [connect4_expand_nodes]
              intro x
              by_cases hx : x = node
              · rw [hx, Function.update_same]
                exact connect4_nodeInv_expand _ _ _ _ (hinv node) hv
              · rw [Function.update_noteq hx]
                exact hinv x
            · rw [connect4_expand_nodes]
              intro x hxns _
              have hxnode : x ≠ node :=
                fun he => hxns (he ▸ List.mem_cons_self node _)
              rw [Function.update_noteq hxnode]
          · -- unresolved: allocation then one rollout
            by_cases hnull : (connect4_alloc c).1 = CONNECT4_NULL
            · rw [if_pos hnull]
              have hmem : ((List.finRange 7).filter
                  (fun i => (c.nodes node).next i == CONNECT4_NULL &&
                    connect4_valid (st 0 ||| st 1) i)).getD 0 0
                  ∈ (List.finRange 7).filter
                    (fun i => (c.nodes node).next i == CONNECT4_NULL &&
                      connect4_valid (st 0 ||| st 1) i) :=
                connect4_getD_mem (by omega) 0
              have hprops := connect4_pick_untried c node (st 0 ||| st 1) _ hmem
              have ha2 := connect4_alloc_null c hnull
              rw [hnull, ha2, connect4_setNext_self c node _ CONNECT4_NULL hprops.1]
              exact ⟨hinv, fun x _ _ => rfl⟩
            · rw [if_neg hnull]
              exact connect4_expandAlloc_inv fuel c c node _ turn _ _ flist
                rfl rfl hchain hdisj (List.mem_cons_self node _) hinv hnull
        · -- the untried option is picked with a random draw
          rw [if_neg hlen1]
          dsimp only
          split
          · -- immediate terminal draw
            constructor
            · rw [connect4_expand_nodes]
              intro x
              by_cases hx : x = node
              · rw [hx, Function.update_same]
                exact connect4_nodeInv_expand _ _ _ _ (hinv node) (by decide)
              · rw [Function.update_noteq hx]
                exact hinv x
            · rw [connect4_expand_nodes]
              intro x hxns _
              have hxnode : x ≠ node :=
                fun he => hxns (he ▸ List.mem_cons_self node _)
              rw [Function.update_noteq hxnode]
          · -- immediate terminal win
            have hv : (if turn = 1 then CONNECT4_WIN1 else CONNECT4_WIN0)
                ≠ CONNECT4_NULL := by
              split <;> decide
            constructor
            · rw [connect4_expand_nodes]
              intro x
              by_cases hx : x = node
              · rw [hx, Function.update_same]
                exact connect4_nodeInv_expand _ _ _ _ (hinv node) hv
              · rw [Function.update_noteq hx]
                exact hinv x
            · rw [connect4_expand_nodes]
              intro x hxns _
              have hxnode : x ≠ node :=
                fun he => hxns (he ▸ List.mem_cons_self node _)
              rw [Function.update_noteq hxnode]
          · -- unresolved: allocation then one rollout
            by_cases hnull : (connect4_alloc
                { c with rng := (xoroshiro128plus c.rng).2 }).1 = CONNECT4_NULL
            · rw [if_pos hnull]
              have hlpos : 0 < ((List.finRange 7).filter
                  (fun i => (c.nodes node).next i == CONNECT4_NULL &&
                    connect4_valid (st 0 ||| st 1) i)).length := by omega
              have hmem : ((List.finRange 7).filter
                  (fun i => (c.nodes node).next i == CONNECT4_NULL &&
                    connect4_valid (st 0 ||| st 1) i)).getD
                  ((xoroshiro128plus c.rng).1 % ((List.finRange 7).filter
                    (fun i => (c.nodes node).next i == CONNECT4_NULL &&
                      connect4_valid (st 0 ||| st 1) i)).length) 0
                  ∈ (List.finRange 7).filter
                    (fun i => (c.nodes node).next i == CONNECT4_NULL &&
                      connect4_valid (st 0 ||| st 1) i) :=
                connect4_getD_mem (Nat.mod_lt _ hlpos) 0
              have hprops := connect4_pick_untried c node (st 0 ||| st 1) _ hmem
              have ha2 := connect4_alloc_null _ hnull
              rw [hnull, ha2,
                connect4_setNext_self
                  ({ c with rng := (xoroshiro128plus c.rng).2 }) node _
                  CONNECT4_NULL hprops.1]
              exact ⟨hinv, fun x _ _ => rfl⟩
            · rw [if_neg hnull]
              exact connect4_expandAlloc_inv fuel c
                ({ c with rng := (xoroshiro128plus c.rng).2 }) node _ turn _ _
                flist rfl rfl hchain hdisj (List.mem_cons_self node _) hinv hnull

/-! ## Remaining claim theorems and witnesses -/

theorem connect4_manyGo_succ (fuel count : Nat) (c : Connect4AI) :
    connect4_playout_manyGo fuel (count + 1) c =
      (if (connect4_playout fuel c c.root c.state c.turn).1 = -1
       then (connect4_playout fuel c c.root c.state c.turn).2
       else connect4_playout_manyGo fuel count
         (connect4_playout fuel c c.root c.state c.turn).2) := rfl

theorem connect4_scanStep_len (n : Connect4Node) (taken : Nat) (numerator : Real)
    (acc : Nat × Option Real × List (Fin 7)) (i : Fin 7) :
    (connect4_ucbScanStep n taken numerator acc i).2.2.length ≤ acc.2.2.length + 1 := by
  unfold connect4_ucbScanStep
  by_cases hvi : connect4_valid taken (i : Nat) = true
  · rw [if_pos hvi]
    dsimp only
    rcases hacc : acc.2.1 with _ | bv
    · dsimp only
      simp
    · dsimp only
      split
      · simp
      · split
        · simp
        · dsimp only
          omega
  · rw [if_neg hvi]
    omega

theorem connect4_scan_fold_len (n : Connect4Node) (taken : Nat) (numerator : Real) :
    ∀ (l : List (Fin 7)) (acc : Nat × Option Real × List (Fin 7)),
    ((l.foldl (connect4_ucbScanStep n taken numerator) acc).2.2).length ≤
      acc.2.2.length + l.length := by
  intro l
  induction l with
  | nil =>
    intro acc
    simp
  | cons i is ih =>
    intro acc
    rw [List.foldl_cons]
    have h1 := connect4_scanStep_len n taken numerator acc i
    have h2 := ih (connect4_ucbScanStep n taken numerator acc i)
    simp only [List.length_cons]
    omega

theorem connect4_scan_len (n : Connect4Node) (taken : Nat) (numerator : Real)
    (total0 : Nat) :
    (connect4_ucbScan n taken numerator total0).2.2.length ≤ 7 := by
  have h := connect4_scan_fold_len n taken numerator (List.finRange 7)
    (total0, none, ([] : List (Fin 7)))
  simpa [connect4_ucbScan] using h

set_option maxRecDepth 100000 in
/-- C2 (corrected, counterexample): on a two-empty-cell position the
playout expands the single legal column, the random rollout fills the
last cell and reaches a draw, and the expanded edge ends with score
`CONNECT4_SCORE_DRAW = 1/10` — not the win increment, contradicting the
claim that the single-expansion rollout path credits a draw with the
same fixed win increment.  The child reference 1 shows the draw was
scored by the rollout path and not as an immediate terminal draw. -/
theorem C2_counterexample :
    (connect4_playout 43 cW2 0 cW2.state 0).1 = 2 ∧
    ((connect4_playout 43 cW2 0 cW2.state 0).2.nodes 0).next 0 = 1 ∧
    ((connect4_playout 43 cW2 0 cW2.state 0).2.nodes 0).score 0 =
      CONNECT4_SCORE_DRAW ∧
    CONNECT4_SCORE_DRAW ≠ CONNECT4_SCORE_WIN := by
  refine ⟨by decide, by decide, ?_,
    by norm_num [CONNECT4_SCORE_DRAW, CONNECT4_SCORE_WIN]⟩
  have h : ((connect4_playout 43 cW2 0 cW2.state 0).2.nodes 0).score 0 =
      0 + CONNECT4_SCORE_DRAW := rfl
  rw [h, zero_add]

/-- C2 (amended): the two draw-scoring paths differ.  In the
backup-from-recursion path a draw result (code 2) adds the fixed win
increment, but the draw arm of the single-expansion rollout loop adds
the smaller draw increment `CONNECT4_SCORE_DRAW` to the expanded edge,
and the two increments are different. -/
theorem C2_draw_scoring :
    (∀ turn : Fin 2, connect4_backupIncrement 2 turn = CONNECT4_SCORE_WIN) ∧
    (∀ (roll : Connect4AI → (Fin 2 → Nat) → Fin 2 → Int × Connect4AI)
       (c c1 : Connect4AI) (node : Nat) (copy : Fin 2 → Nat) (turn : Fin 2)
       (op : Fin 7) (ot : Fin 2) (play : Nat),
      ((List.finRange 7).filter
        (fun i => connect4_valid (copy 0 ||| copy 1) i)).length ≠ 0 →
      (if ((List.finRange 7).filter
            (fun i => connect4_valid (copy 0 ||| copy 1) i)).length = 1
       then (((List.finRange 7).filter
            (fun i => connect4_valid (copy 0 ||| copy 1) i)).getD 0 0, c)
       else (((List.finRange 7).filter
            (fun i => connect4_valid (copy 0 ||| copy 1) i)).getD
            ((xoroshiro128plus c.rng).1 % ((List.finRange 7).filter
              (fun i => connect4_valid (copy 0 ||| copy 1) i)).length) 0,
          { c with rng := (xoroshiro128plus c.rng).2 })) = (play, c1) →
      (connect4_check
          (Function.update copy (1 - turn)
            (copy (1 - turn) ||| 1 <<< connect4_drop (copy 0 ||| copy 1) play)
            (1 - turn))
          (Function.update copy (1 - turn)
            (copy (1 - turn) ||| 1 <<< connect4_drop (copy 0 ||| copy 1) play)
            (1 - (1 - turn)))
          (connect4_drop (copy 0 ||| copy 1) play)).1 = Connect4Result.draw →
      connect4_rolloutStep roll c node copy turn op ot =
        (2, connect4_addScore c1 node op CONNECT4_SCORE_DRAW)) ∧
    CONNECT4_SCORE_DRAW ≠ CONNECT4_SCORE_WIN := by
  refine ⟨?_, ?_, ?_⟩
  · intro turn
    fin_cases turn <;> rfl
  · intro roll c c1 node copy turn op ot play hlen hpick hdraw
    unfold connect4_rolloutStep
    dsimp only
    rw [if_neg hlen, hpick]
    dsimp only
    rw [hdraw]
  · norm_num [CONNECT4_SCORE_DRAW, CONNECT4_SCORE_WIN]

set_option maxRecDepth 100000 in
theorem C2_draw_scoring_witness :
    ((List.finRange 7).filter
      (fun i => connect4_valid (cp2 0 ||| cp2 1) i)).length ≠ 0 ∧
    connect4_rolloutStep (fun c2 _ _ => ((0 : Int), c2)) cW2 0 cp2 0 0 0 =
      (2, connect4_addScore cW2 0 0 CONNECT4_SCORE_DRAW) := by
  have h1 : ((List.finRange 7).filter
      (fun i => connect4_valid (cp2 0 ||| cp2 1) i)).length ≠ 0 := by decide
  exact ⟨h1, C2_draw_scoring.2.1 (fun c2 _ _ => ((0 : Int), c2)) cW2 cW2 0 cp2 0 0 0 0
    h1 rfl (by decide)⟩

/-- C3: the UCB selection of the fully-expanded branch.  The column
value is the mean score plus `sqrt(numerator / visits)` with the
numerator `C · ln(total)` computed from the preliminary total; the
selection scan's best list holds exactly the legal columns attaining
the maximal value (which bounds every legal column); the scan's running
total re-accumulates the visit sum a second time, ending at twice the
preliminary total (the literal arithmetic of the original, dead for the
selection); a unique best column is chosen directly without a random
draw, and with several tied best columns the selection is
`best[draw mod nbest]` with one random draw consumed, every tied index
being reachable under some generator state. -/
theorem C3_ucb_selection (c : Connect4AI) (n : Connect4Node) (taken : Nat) :
    (∀ i : Fin 7, connect4_ucbValue n
        (CONNECT4_C * Real.log ((connect4_ucbTotal n taken : Nat) : Real)) i =
      ((n.score i / (n.playouts i : Rat) : Rat) : Real) +
        Real.sqrt ((CONNECT4_C * Real.log ((connect4_ucbTotal n taken : Nat) : Real)) /
          ((n.playouts i : Nat) : Real))) ∧
    (∀ bv : Real,
      (connect4_ucbScan n taken
        (CONNECT4_C * Real.log ((connect4_ucbTotal n taken : Nat) : Real))
        (connect4_ucbTotal n taken)).2.1 = some bv →
      (∀ i : Fin 7,
        i ∈ (connect4_ucbScan n taken
          (CONNECT4_C * Real.log ((connect4_ucbTotal n taken : Nat) : Real))
          (connect4_ucbTotal n taken)).2.2 ↔
        (connect4_valid taken (i : Nat) = true ∧
          connect4_ucbValue n
            (CONNECT4_C * Real.log ((connect4_ucbTotal n taken : Nat) : Real)) i = bv)) ∧
      (∀ i : Fin 7, connect4_valid taken (i : Nat) = true →
        connect4_ucbValue n
          (CONNECT4_C * Real.log ((connect4_ucbTotal n taken : Nat) : Real)) i ≤ bv)) ∧
    ((connect4_ucbScan n taken
        (CONNECT4_C * Real.log ((connect4_ucbTotal n taken : Nat) : Real))
        (connect4_ucbTotal n taken)).1 = 2 * connect4_ucbTotal n taken) ∧
    ((connect4_ucbScan n taken
        (CONNECT4_C * Real.log ((connect4_ucbTotal n taken : Nat) : Real))
        (connect4_ucbTotal n taken)).2.2.length = 1 →
      connect4_ucbSelect c n taken =
        (some ((connect4_ucbScan n taken
          (CONNECT4_C * Real.log ((connect4_ucbTotal n taken : Nat) : Real))
          (connect4_ucbTotal n taken)).2.2.getD 0 0), c)) ∧
    (1 < (connect4_ucbScan n taken
        (CONNECT4_C * Real.log ((connect4_ucbTotal n taken : Nat) : Real))
        (connect4_ucbTotal n taken)).2.2.length →
      connect4_ucbSelect c n taken =
        (some ((connect4_ucbScan n taken
          (CONNECT4_C * Real.log ((connect4_ucbTotal n taken : Nat) : Real))
          (connect4_ucbTotal n taken)).2.2.getD
          ((xoroshiro128plus c.rng).1 % (connect4_ucbScan n taken
            (CONNECT4_C * Real.log ((connect4_ucbTotal n taken : Nat) : Real))
            (connect4_ucbTotal n taken)).2.2.length) 0),
          { c with rng := (xoroshiro128plus c.rng).2 }) ∧
      ∀ k : Nat, k < (connect4_ucbScan n taken
          (CONNECT4_C * Real.log ((connect4_ucbTotal n taken : Nat) : Real))
          (connect4_ucbTotal n taken)).2.2.length →
        (connect4_ucbSelect { c with rng := ((k : Nat), (0 : Nat)) } n taken).1 =
          some ((connect4_ucbScan n taken
            (CONNECT4_C * Real.log ((connect4_ucbTotal n taken : Nat) : Real))
            (connect4_ucbTotal n taken)).2.2.getD k 0)) := by
  have hinv := connect4_ucbScan_inv n taken
    (CONNECT4_C * Real.log ((connect4_ucbTotal n taken : Nat) : Real))
    (connect4_ucbTotal n taken)
  refine ⟨fun i => rfl, ?_, connect4_ucbScan_total n taken _, ?_, ?_⟩
  · intro bv hbv
    obtain ⟨hne, hmem, hle, hcomp⟩ := hinv.2 bv hbv
    refine ⟨fun i => ⟨fun hi => ⟨(hmem i hi).2.1, (hmem i hi).2.2⟩,
      fun h => hcomp i (List.mem_finRange i) h.1 h.2⟩, ?_⟩
    intro i hv
    exact hle i (List.mem_finRange i) hv
  · intro hlen
    unfold connect4_ucbSelect
    dsimp only
    rw [if_pos hlen]
  · intro hlen
    constructor
    · unfold connect4_ucbSelect
      dsimp only
      rw [if_neg (by omega), if_neg (by omega)]
    · intro k hk
      have hlen7 := connect4_scan_len n taken
        (CONNECT4_C * Real.log ((connect4_ucbTotal n taken : Nat) : Real))
        (connect4_ucbTotal n taken)
      have hkU : k < U64 := by
        have h8 : k < 8 := by omega
        have hU : 8 ≤ U64 := by unfold U64; norm_num
        omega
      unfold connect4_ucbSelect
      dsimp only
      rw [if_neg (by omega), if_neg (by omega)]
      dsimp only
      have hx : (xoroshiro128plus ((k : Nat), (0 : Nat))).1 %
          (connect4_ucbScan n taken
            (CONNECT4_C * Real.log ((connect4_ucbTotal n taken : Nat) : Real))
            (connect4_ucbTotal n taken)).2.2.length = k := by
        show ((k + 0) % U64) % _ = k
        rw [Nat.add_zero, Nat.mod_eq_of_lt hkU, Nat.mod_eq_of_lt hk]
      rw [hx]

set_option maxRecDepth 100000 in
set_option maxHeartbeats 2000000 in
theorem C3_ucb_selection_witness :
    (connect4_ucbScan connect4_resetNode 126
      (CONNECT4_C * Real.log ((connect4_ucbTotal connect4_resetNode 126 : Nat) : Real))
      (connect4_ucbTotal connect4_resetNode 126)).2.2.length = 1 ∧
    connect4_ucbSelect cW8 connect4_resetNode 126 =
      (some ((connect4_ucbScan connect4_resetNode 126
        (CONNECT4_C * Real.log ((connect4_ucbTotal connect4_resetNode 126 : Nat) : Real))
        (connect4_ucbTotal connect4_resetNode 126)).2.2.getD 0 0), cW8) := by
  have h : (connect4_ucbScan connect4_resetNode 126
      (CONNECT4_C * Real.log ((connect4_ucbTotal connect4_resetNode 126 : Nat) : Real))
      (connect4_ucbTotal connect4_resetNode 126)).2.2.length = 1 := rfl
  exact ⟨h, (C3_ucb_selection cW8 connect4_resetNode 126).2.2.2.1 h⟩

/-- C5: a playout that reports the aborted code `-1` (the code produced
when node allocation fails while expanding an untried column, and which
no rollout can produce) leaves every node record, the root, the free
list, the arena bookkeeping, the board mirror and the turn exactly as
they were — in particular the failing column's child reference is still
the empty sentinel — and the batch loop of `connect4_playout_many`
stops immediately after it, returning the playout's state unchanged. -/
theorem C5_alloc_failure_abort (fuel count : Nat) (c : Connect4AI)
    (habort : (connect4_playout fuel c c.root c.state c.turn).1 = -1) :
    connect4_sameTree (connect4_playout fuel c c.root c.state c.turn).2 c ∧
    connect4_playout_manyGo fuel (count + 1) c =
      (connect4_playout fuel c c.root c.state c.turn).2 := by
  refine ⟨connect4_playout_abort_frame fuel c c.root c.state c.turn habort, ?_⟩
  rw [connect4_manyGo_succ, if_pos habort]

set_option maxRecDepth 100000 in
set_option maxHeartbeats 4000000 in
theorem C5_alloc_failure_abort_witness :
    (connect4_playout 1 cW8 cW8.root cW8.state cW8.turn).1 = -1 ∧
    (connect4_sameTree (connect4_playout 1 cW8 cW8.root cW8.state cW8.turn).2 cW8 ∧
     connect4_playout_manyGo 1 (3 + 1) cW8 =
       (connect4_playout 1 cW8 cW8.root cW8.state cW8.turn).2) := by
  have h : (connect4_playout 1 cW8 cW8.root cW8.state cW8.turn).1 = -1 := by decide
  exact ⟨h, C5_alloc_failure_abort 1 3 cW8 h⟩

/-- C8: under arena consistency — the tree below `node` is represented
by the duplicate-free preorder list `ns`, the free list is a chain
through `flist` disjoint from `ns` — a playout preserves at every node
the invariant that a column's visit count is nonzero exactly when its
child reference is not the empty sentinel (in particular, nonzero only
if non-empty); and at any node satisfying the invariant with no untried
legal column, every legal column has a nonzero visit count, so the UCB
mean-score division is never by a zero visit count. -/
theorem C8_visit_invariant (fuel : Nat) (c : Connect4AI) (node : Nat)
    (st : Fin 2 → Nat) (turn : Fin 2) (tf : Nat) (ns flist : List Nat)
    (hrep : connect4_subtree tf c node ns) (hnd : ns.Nodup)
    (hchain : connect4_chainTo c.nodes c.free flist CONNECT4_NULL)
    (hdisj : ∀ x ∈ ns, x ∉ flist)
    (hinv : ∀ x, connect4_nodeInv (c.nodes x)) :
    (∀ x, connect4_nodeInv ((connect4_playout fuel c node st turn).2.nodes x)) ∧
    (∀ (m taken : Nat),
      ((List.finRange 7).filter
        (fun i => (c.nodes m).next i == CONNECT4_NULL &&
          connect4_valid taken i)).length = 0 →
      ∀ i : Fin 7, connect4_valid taken (i : Nat) = true →
        (c.nodes m).playouts i ≠ 0) :=
  ⟨(connect4_playout_inv fuel c node st turn tf ns flist hrep hnd hchain hdisj hinv).1,
   fun m taken hopt i hv =>
     connect4_fullyExpanded_playouts (c.nodes m) taken hopt (hinv m) i hv⟩

theorem C8_visit_invariant_witness :
    (∀ x, connect4_nodeInv ((connect4_playout 1 cW8 0 (fun _ => 0) 0).2.nodes x)) ∧
    (∀ (m taken : Nat),
      ((List.finRange 7).filter
        (fun i => (cW8.nodes m).next i == CONNECT4_NULL &&
          connect4_valid taken i)).length = 0 →
      ∀ i : Fin 7, connect4_valid taken (i : Nat) = true →
        (cW8.nodes m).playouts i ≠ 0) :=
  C8_visit_invariant 1 cW8 0 (fun _ => 0) 0 1
    (0 :: ((List.finRange 7).map (fun _ => ([] : List Nat))).flatten) []
    (connect4_subtree.real 0 cW8 0 (fun _ => ([] : List Nat)) (by decide)
      (fun i => connect4_subtree.sentinel 0 cW8 _ (Or.inr (Or.inr (Or.inr rfl)))))
    (by decide) rfl (fun x _ => List.not_mem_nil x)
    (fun x => connect4_resetNode_inv)

theorem C6_advance_reuse_witness :
    (connect4_advance (1 + 1) cW6 ((0 : Fin 7) : Nat)).root = 1 ∧
    (connect4_advance (1 + 1) cW6 ((0 : Fin 7) : Nat)).nodes 1 = cW6.nodes 1 ∧
    ∃ p : List Nat,
      p.Perm (cW6.root ::
        ((List.finRange 7).map (Function.update cW6ls 0 ([] : List Nat))).flatten) ∧
      connect4_chainTo (connect4_advance (1 + 1) cW6 ((0 : Fin 7) : Nat)).nodes
        (connect4_advance (1 + 1) cW6 ((0 : Fin 7) : Nat)).free p cW6.free :=
  C6_advance_reuse 1 cW6 0 1 cW6ls (by decide)
    (fun i => by
      fin_cases i
      · exact connect4_subtree.real 0 cW6 1 (fun _ => ([] : List Nat)) (by decide)
          (fun j => connect4_subtree.sentinel 0 cW6 _ (Or.inr (Or.inr (Or.inr rfl))))
      all_goals exact connect4_subtree.sentinel 1 cW6 _ (Or.inr (Or.inr (Or.inr rfl))))
    (by decide) (by decide) (by decide) (by decide)

theorem C7_arena_exhaustion_witness :
    ((connect4_allocN (connect4_init_pre 2 0 0).1 2).1 = List.range 2 ∧
     (List.range 2).Nodup ∧
     (∀ x ∈ List.range 2, x < CONNECT4_DRAW) ∧
     (∀ x ∈ List.range 2,
       (connect4_allocN (connect4_init_pre 2 0 0).1 2).2.nodes x =
         connect4_resetNode) ∧
     (connect4_alloc (connect4_allocN (connect4_init_pre 2 0 0).1 2).2).1 =
       CONNECT4_NULL) ∧
    ((connect4_allocN (connect4_free 2 cW6 0)
        (0 :: ((List.finRange 7).map cW6ls).flatten).length).1.length =
      (0 :: ((List.finRange 7).map cW6ls).flatten).length ∧
     (∀ x ∈ (connect4_allocN (connect4_free 2 cW6 0)
        (0 :: ((List.finRange 7).map cW6ls).flatten).length).1,
       x ≠ CONNECT4_NULL)) :=
  C7_arena_exhaustion 2 0 0 (by decide) (by decide) 2 cW6 0
    (0 :: ((List.finRange 7).map cW6ls).flatten)
    (connect4_subtree.real 1 cW6 0 cW6ls (by decide)
      (fun i => by
        fin_cases i
        · exact connect4_subtree.real 0 cW6 1 (fun _ => ([] : List Nat)) (by decide)
            (fun j => connect4_subtree.sentinel 0 cW6 _ (Or.inr (Or.inr (Or.inr rfl))))
        all_goals exact connect4_subtree.sentinel 1 cW6 _ (Or.inr (Or.inr (Or.inr rfl)))))
    (by decide)

theorem C10_advance_terminal_sentinel_witness :
    (connect4_advance 2 cW10 ((0 : Fin 7) : Nat)).root = CONNECT4_DRAW ∧
    connect4_playout (2 + 1) cW10 CONNECT4_DRAW (fun _ => 0) 0 =
      ((if CONNECT4_DRAW = CONNECT4_WIN0 then 0
        else if CONNECT4_DRAW = CONNECT4_WIN1 then 1 else 2 : Int), cW10) :=
  C10_advance_terminal_sentinel 2 cW10 (fun _ => 0) 0 0 CONNECT4_DRAW
    (Or.inr (Or.inr rfl)) (by decide) (by decide)

end Connect4
